import Mathlib

/-!
# Gateway storage (package `internal/storage`)

A shallow embedding of `gateway.go` and `storage.go`:

* the point codec `GPSPoint.Value` / `GPSPoint.Scan`, over a model of the Go
  library functions it calls (`strconv.FormatFloat`, `strconv.ParseFloat`,
  `fmt.Sscanf`), with float64 values given by their IEEE-754 bit fields and all
  arithmetic done exactly on natural numbers. Text is scanned as the library of
  Go 1.12 does, current when the package was written: numbers are decimal (later
  releases also read hexadecimal mantissas and `_` between digits). FormatFloat prints
  the shortest decimal that reads back, and where there are several the one nearest
  to the value: what strconv documents for precision -1 and its roundShortest
  computes;
* the five repository operations, as state-passing functions over a world that
  holds the database handle's state, the log and the metrics registry; `time.Now()`
  is the explicit argument `now`;
* an in-memory table keyed by `gateway_id` that plays the store where a property
  is about create / update / get sequences.
-/

namespace Storage

/-! ## float64 -/

/-- A Go float64, given by the three fields of its IEEE-754 binary64 bit pattern:
sign bit, 11-bit biased exponent and 52-bit fraction. -/
structure Float64 where
  sign : Bool
  expo : Fin 2048
  frac : Fin 4503599627370496
  deriving DecidableEq, Repr

namespace Float64

def isNaN (x : Float64) : Bool := x.expo.val == 2047 && x.frac.val != 0

def isInf (x : Float64) : Bool := x.expo.val == 2047 && x.frac.val == 0

def isZero (x : Float64) : Bool := x.expo.val == 0 && x.frac.val == 0

/-- Go's `==` on float64: a NaN equals nothing, the two zeros are equal. -/
def goEq (x y : Float64) : Bool :=
  !x.isNaN && !y.isNaN && ((x.isZero && y.isZero) || x == y)

def ofFields (sign : Bool) (expo frac : Nat) : Float64 :=
  ⟨sign, Fin.ofNat expo, Fin.ofNat frac⟩

/-- The value math.NaN() returns (bits 0x7FF8000000000001). -/
def NaN : Float64 := ofFields false 2047 2251799813685249

def Inf (neg : Bool) : Float64 := ofFields neg 2047 0

def zero (neg : Bool) : Float64 := ofFields neg 0 0

/-- Integer significand of a finite value. -/
def mant (x : Float64) : Nat :=
  if x.expo.val = 0 then x.frac.val else 4503599627370496 + x.frac.val

/-- Binary exponent of the unit in the last place of a finite value:
the value is `mant * 2 ^ ulpExp`. -/
def ulpExp (x : Float64) : Int :=
  if x.expo.val = 0 then -1074 else (x.expo.val : Int) - 1075

end Float64

/-- Number of binary digits of `n`, by halving; `fuel` bounds the recursion. -/
def bitLenAux : Nat → Nat → Nat
  | 0, _ => 0
  | fuel + 1, n => if n = 0 then 0 else bitLenAux fuel (n / 2) + 1

def bitLen (n : Nat) : Nat := bitLenAux n n

/-- The pair `(a', b')` with `a' / b' = (a / b) / 2 ^ e`. -/
def scale2 (a b : Nat) (e : Int) : Nat × Nat :=
  if 0 ≤ e then (a, b * 2 ^ e.toNat) else (a * 2 ^ (-e).toNat, b)

/-- For positive `a`, `b`: the integer `e` with `2 ^ e ≤ a / b < 2 ^ (e + 1)`. -/
def floorLog2 (a b : Nat) : Int :=
  let e0 : Int := (bitLen a : Int) - (bitLen b : Int)
  let p := scale2 a b e0
  if p.2 ≤ p.1 then e0 else e0 - 1

/-- Quotient `num / den` rounded to the nearest integer, ties to even. -/
def roundHalfEven (num den : Nat) : Nat :=
  let t := num / den
  let r := num % den
  if 2 * r < den then t
  else if den < 2 * r then t + 1
  else t + t % 2

/-- IEEE-754 round-to-nearest-even of the non-negative rational `a / b` to binary64.
The second component reports overflow (the result is then an infinity). -/
def roundToFloat64 (neg : Bool) (a b : Nat) : Float64 × Bool :=
  if a = 0 then (Float64.zero neg, false)
  else
    let e := floorLog2 a b
    let ue : Int := max (e - 52) (-1074)
    let p := scale2 a b ue
    let n := roundHalfEven p.1 p.2
    let ue' : Int := if n = 9007199254740992 then ue + 1 else ue
    let n' : Nat := if n = 9007199254740992 then 4503599627370496 else n
    if n' < 4503599627370496 then (Float64.ofFields neg 0 n', false)
    else if 971 < ue' then (Float64.Inf neg, true)
    else (Float64.ofFields neg (ue' + 1075).toNat (n' - 4503599627370496), false)

/-- The decimal `m * 10 ^ e10` rounded to binary64. -/
def decimalToFloat64 (neg : Bool) (m : Nat) (e10 : Int) : Float64 × Bool :=
  if 0 ≤ e10 then roundToFloat64 neg (m * 10 ^ e10.toNat) 1
  else roundToFloat64 neg m (10 ^ (-e10).toNat)

/-! ## Errors -/

/-- Go error values that occur in this package. `ErrDoesNotExist` and
`ErrAlreadyExists` are the package's own; the others come from the libraries
(`database/sql`, `io`, `strconv`, `lib/pq`, `errors`, `fmt`). A Go `error` is an
`Option Error`, `none` being nil. -/
inductive Error
  | ErrDoesNotExist
  | ErrAlreadyExists
  | ErrNoRows
  | EOF
  | ErrUnexpectedEOF
  | ErrSyntax
  | ErrRange
  | pqError (codeName : String)
  | errorString (msg : String)
  | wrap (cause : Error) (msg : String)
  deriving DecidableEq, Repr

deriving instance DecidableEq for Except

/-! ## strconv -/

def isDigit (c : Char) : Bool := decide ('0' ≤ c) && decide (c ≤ '9')

def digitVal (c : Char) : Nat := c.toNat - 48

def lower (c : Char) : Char :=
  if decide ('A' ≤ c) && decide (c ≤ 'Z') then Char.ofNat (c.toNat + 32) else c

def equalIgnoreCase (s t : List Char) : Bool := s.map lower == t.map lower

/-- Leading decimal digits of the text, accumulated onto `acc`, their count added
to `n`, and the rest of the text. -/
def readDigits : List Char → Nat → Nat → Nat × Nat × List Char
  | [], acc, n => (acc, n, [])
  | c :: cs, acc, n =>
    if isDigit c then readDigits cs (acc * 10 + digitVal c) (n + 1) else (acc, n, c :: cs)

/-- Exponent digits, accumulated as strconv does: once the value has reached 10000
further digits are read and ignored. -/
def readExpDigits : List Char → Nat → Nat × List Char
  | [], e => (e, [])
  | c :: cs, e =>
    if isDigit c then readExpDigits cs (if e < 10000 then e * 10 + digitVal c else e)
    else (e, c :: cs)

/-- A decimal number read by strconv: sign, all mantissa digits as one integer
and the power of ten that scales it. -/
structure Decimal where
  neg : Bool
  mant : Nat
  exp10 : Int
  deriving DecidableEq, Repr

/-- An optional sign at the head of the text: whether it is `-`, and the rest. -/
def readSign : List Char → Bool × List Char
  | [] => (false, [])
  | c :: t => if c = '-' then (true, t) else if c = '+' then (false, t) else (false, c :: t)

/-- Syntax of strconv.ParseFloat for decimal numbers: optional sign, digits with at
most one point and at least one digit, optional exponent `e` or `E` with optional
sign and at least one digit, and nothing after it. -/
def readFloat (s : List Char) : Option Decimal :=
  let sg := readSign s
  let ip := readDigits sg.2 0 0
  let fp := if ip.2.2.head? = some '.' then readDigits ip.2.2.tail ip.1 0 else (ip.1, 0, ip.2.2)
  if ip.2.1 + fp.2.1 = 0 then none
  else
    match fp.2.2 with
    | [] => some ⟨sg.1, fp.1, -(fp.2.1 : Int)⟩
    | c :: t =>
      if c = 'e' ∨ c = 'E' then
        let es := readSign t
        match es.2 with
        | [] => none
        | d :: _ =>
          if isDigit d then
            let e := readExpDigits es.2 0
            if e.2 = [] then
              some ⟨sg.1, fp.1, (if es.1 then -(e.1 : Int) else (e.1 : Int)) - (fp.2.1 : Int)⟩
            else none
          else none
      else none

/-- The values strconv.ParseFloat accepts by name, in any letter case. -/
def special (s : List Char) : Option Float64 :=
  match s with
  | [] => none
  | c :: _ =>
    if c = '+' then
      if equalIgnoreCase s "+inf".toList || equalIgnoreCase s "+infinity".toList
      then some (Float64.Inf false) else none
    else if c = '-' then
      if equalIgnoreCase s "-inf".toList || equalIgnoreCase s "-infinity".toList
      then some (Float64.Inf true) else none
    else if c = 'n' ∨ c = 'N' then
      if equalIgnoreCase s "nan".toList then some Float64.NaN else none
    else if c = 'i' ∨ c = 'I' then
      if equalIgnoreCase s "inf".toList || equalIgnoreCase s "infinity".toList
      then some (Float64.Inf false) else none
    else none

/-- strconv.ParseFloat(s, 64) on decimal text: the nearest float64, ties to even;
ErrSyntax for text that is not a number, ErrRange (with an infinity) on overflow. -/
def ParseFloat (s : List Char) : Float64 × Option Error :=
  match special s with
  | some v => (v, none)
  | none =>
    match readFloat s with
    | none => (Float64.zero false, some Error.ErrSyntax)
    | some d =>
      let r := decimalToFloat64 d.neg d.mant d.exp10
      (r.1, if r.2 then some Error.ErrRange else none)

/-- strconv.Atoi on a 64-bit platform. -/
def Atoi (s : List Char) : Int × Option Error :=
  let sg := readSign s
  let r := readDigits sg.2 0 0
  if r.2.1 = 0 ∨ r.2.2 ≠ [] then (0, some Error.ErrSyntax)
  else if sg.1 then
    if 9223372036854775808 < r.1 then (-9223372036854775808, some Error.ErrRange)
    else (-(r.1 : Int), none)
  else
    if 9223372036854775807 < r.1 then (9223372036854775807, some Error.ErrRange)
    else ((r.1 : Int), none)

/-- The function math.Ldexp: `frac * 2 ^ exp`, rounded to nearest even. -/
def Ldexp (frac : Float64) (exp : Int) : Float64 :=
  if frac.isZero || frac.isInf || frac.isNaN then frac
  else
    let e := floorLog2 frac.mant 1 + frac.ulpExp + exp
    if e < -1075 then Float64.zero frac.sign
    else if 1023 < e then Float64.Inf frac.sign
    else
      let s := frac.ulpExp + exp
      (if 0 ≤ s then roundToFloat64 frac.sign (frac.mant * 2 ^ s.toNat) 1
       else roundToFloat64 frac.sign frac.mant (2 ^ (-s).toNat)).1

/-- Digit characters of `n`, least significant first; `fuel` bounds the recursion. -/
def digitsRev : Nat → Nat → List Char
  | 0, _ => []
  | fuel + 1, n => if n = 0 then [] else Char.ofNat (48 + n % 10) :: digitsRev fuel (n / 10)

/-- Decimal digits of `n`, most significant first (`0` for zero). -/
def natDigits (n : Nat) : List Char :=
  if n = 0 then ['0'] else (digitsRev n n).reverse

/-- The `%f` layout of strconv for the non-negative decimal `d * 10 ^ e10`:
integer digits, then a point and fraction digits when there are any. -/
def fmtF (d : Nat) (e10 : Int) : List Char :=
  if 0 ≤ e10 then
    if d = 0 then ['0'] else natDigits d ++ List.replicate e10.toNat '0'
  else
    let ds := natDigits d
    let f := (-e10).toNat
    if f < ds.length then ds.take (ds.length - f) ++ '.' :: ds.drop (ds.length - f)
    else '0' :: '.' :: (List.replicate (f - ds.length) '0' ++ ds)

/-- Exact decimal expansion of the finite value `m * 2 ^ e`, as an integer and the
power of ten that scales it (strconv: `d.Assign(mant)`, `d.Shift(exp - mantbits)`). -/
def exactDecimal (m : Nat) (e : Int) : Nat × Int :=
  if 0 ≤ e then (m * 2 ^ e.toNat, 0) else (m * 5 ^ (-e).toNat, e)

def signText (neg : Bool) : List Char := if neg then ['-'] else []

/-- The decimal `d * 10 ^ k` as a fraction of natural numbers. -/
def decFrac (d : Nat) (k : Int) : Nat × Nat :=
  if 0 ≤ k then (d * 10 ^ k.toNat, 1) else (d, 10 ^ (-k).toNat)

/-- The binary number `n * 2 ^ e` as a fraction of natural numbers. -/
def binFrac (n : Nat) (e : Int) : Nat × Nat :=
  if 0 ≤ e then (n * 2 ^ e.toNat, 1) else (n, 2 ^ (-e).toNat)

/-- Whether `d * 10 ^ k < n * 2 ^ e`. -/
def decLtBin (d : Nat) (k : Int) (n : Nat) (e : Int) : Bool :=
  decide ((decFrac d k).1 * (binFrac n e).2 < (binFrac n e).1 * (decFrac d k).2)

/-- Whether `d * 10 ^ k ≤ n * 2 ^ e`. -/
def decLeBin (d : Nat) (k : Int) (n : Nat) (e : Int) : Bool :=
  decide ((decFrac d k).1 * (binFrac n e).2 ≤ (binFrac n e).1 * (decFrac d k).2)

/-- The upper bound of strconv's roundShortest for the finite value
`mant * 2 ^ ulpExp`: halfway to the next float above, `(mant*2+1) << (exp-mantbits-1)`,
as a numerator and a binary exponent. -/
def Float64.upper (x : Float64) : Nat × Int := (x.mant * 2 + 1, x.ulpExp - 1)

/-- The lower bound of strconv's roundShortest: halfway to the next float below,
`(mantlo*2+1) << (explo-mantbits-1)`. The next float below is `(mant-1) << (exp-mantbits)`
unless `mant` is the smallest significand of a binade that is not the lowest one, and
then it is `(mant*2-1) << (exp-mantbits-1)`, half as far away. -/
def Float64.lower (x : Float64) : Nat × Int :=
  if 4503599627370496 < x.mant ∨ x.ulpExp = -1074 then ((x.mant - 1) * 2 + 1, x.ulpExp - 1)
  else ((x.mant * 2 - 1) * 2 + 1, x.ulpExp - 1 - 1)

/-- One round of the loop of strconv's roundShortest, at `n` digits. The exact decimal
of `x` is `d * 10 ^ k` and has `nd` digits. Cutting it after `n` digits rounds down,
adding one to the digit kept last rounds up. Rounding down is allowed when the result
is not below the lower bound, rounding up when the result is not above the upper bound,
and a bound itself is allowed only for an even significand, which is where ParseFloat's
ties go (strconv finds both out by comparing the digits of the three decimals, here the
numbers are compared). When both are allowed the decimal is rounded to the nearer one,
a tie to the even digit (`d.Round`); when neither is, the loop goes on to `n + 1`. -/
def shortestAt (x : Float64) (d : Nat) (k : Int) (nd n : Nat) : Option (Nat × Int) :=
  let pow := 10 ^ (nd - n)
  let k1 : Int := k + ((nd - n : Nat) : Int)
  let down := d / pow
  let up := down + 1
  let inclusive := x.mant % 2 == 0
  let okdown := if inclusive then !decLtBin down k1 x.lower.1 x.lower.2
                else !decLeBin down k1 x.lower.1 x.lower.2
  let okup := if inclusive then decLeBin up k1 x.upper.1 x.upper.2
              else decLtBin up k1 x.upper.1 x.upper.2
  let r := d % pow
  let shouldRoundUp := decide (pow < 2 * r) || (decide (pow = 2 * r) && down % 2 == 1)
  if okdown && okup then some (if shouldRoundUp then up else down, k1)
  else if okdown then some (down, k1)
  else if okup then some (up, k1)
  else none

/-- Number of decimal digits of a positive number (0 for 0). -/
def decLen (n : Nat) : Nat := (digitsRev n n).length

/-- The digits strconv prints with precision -1 (roundShortest on the exact decimal):
the loop runs over the digits of the exact decimal and stops at the first count of
digits at which rounding is allowed, so the result is the decimal with the fewest digits
between the bounds, and the nearer one where both roundings are allowed; the exact
decimal is left as it is when the loop ends without a result. The result is an integer
and the power of ten that scales it. The fast path strconv tries first (Grisu) returns
these digits or gives up. -/
def roundShortest (x : Float64) : Nat × Int :=
  let d := exactDecimal x.mant x.ulpExp
  let nd := decLen d.1
  ((List.range nd).findSome? fun i => shortestAt x d.1 d.2 nd (i + 1)).getD d

/-- Drops the zeros a decimal with fraction digits ends in. -/
def trimZeros : Nat → Nat → Int → Nat × Int
  | 0, d, e10 => (d, e10)
  | fuel + 1, d, e10 =>
    if e10 < 0 ∧ d ≠ 0 ∧ d % 10 = 0 then trimZeros fuel (d / 10) (e10 + 1) else (d, e10)

/-- strconv.FormatFloat(x, 'f', -1, 64): "NaN", "+Inf", "-Inf", and for a finite value
the digits of roundShortest in the `%f` layout, with as many fraction digits as the
digits need and no more. -/
def FormatFloat (x : Float64) : List Char :=
  if x.isNaN then "NaN".toList
  else if x.isInf then (if x.sign then "-Inf".toList else "+Inf".toList)
  else if x.isZero then signText x.sign ++ ['0']
  else
    let r := roundShortest x
    let t := trimZeros (decLen r.1) r.1 r.2
    signText x.sign ++ fmtF t.1 t.2

/-! ## fmt.Sscanf -/

/-- The runes fmt treats as space. -/
def isSpace (r : Char) : Bool :=
  let n := r.toNat
  (decide (0x0009 ≤ n) && decide (n ≤ 0x000d)) || n == 0x0020 || n == 0x0085 || n == 0x00a0
    || n == 0x1680 || (decide (0x2000 ≤ n) && decide (n ≤ 0x200a)) || n == 0x2028
    || n == 0x2029 || n == 0x202f || n == 0x205f || n == 0x3000

/-- The method ss.SkipSpace under Sscanf, where a newline is not space: skips space
runes (and a carriage return that a newline follows) and fails at a newline. -/
def SkipSpace : List Char → Except Error (List Char)
  | [] => .ok []
  | r :: rest =>
    if r = '\r' ∧ rest.head? = some '\n' then SkipSpace rest
    else if r = '\n' then .error (Error.errorString "unexpected newline")
    else if isSpace r then SkipSpace rest
    else .ok (r :: rest)

/-- Scanner state: the runes not yet read and the token buffer. -/
structure ss where
  input : List Char
  buf : List Char
  deriving DecidableEq, Repr

/-- The method ss.accept: reads the next rune into the buffer when it is one of `ok`. -/
def ss.accept (s : ss) (ok : List Char) : Bool × ss :=
  match s.input with
  | [] => (false, s)
  | r :: rest => if r ∈ ok then (true, ⟨rest, s.buf ++ [r]⟩) else (false, s)

/-- The loop `for s.accept(ok) {}`. -/
def acceptRun (ok : List Char) : List Char → List Char → ss
  | [], buf => ⟨[], buf⟩
  | r :: rest, buf => if r ∈ ok then acceptRun ok rest (buf ++ [r]) else ⟨r :: rest, buf⟩

def decimalDigits : List Char := "0123456789".toList

/-- Three runes accepted in a row, as in `s.accept(a) && s.accept(b) && s.accept(c)`:
the runes accepted before the first refusal stay in the buffer. -/
def ss.accept3 (s : ss) (a b c : List Char) : Bool × ss :=
  let r1 := s.accept a
  if r1.1 then
    let r2 := r1.2.accept b
    if r2.1 then r2.2.accept c else (false, r2.2)
  else (false, r1.2)

/-- The part of ss.floatToken that reads a point and the digits after it. -/
def tokenFraction (s : ss) : ss :=
  -- decimal point?
  let p := s.accept ".".toList
  if p.1 then acceptRun decimalDigits p.2.input p.2.buf else p.2

/-- The part of ss.floatToken that reads an exponent. -/
def tokenExponent (s : ss) : ss :=
  -- exponent?
  let e := s.accept "eEp".toList
  if e.1 then
    -- leading sign?
    let s := (e.2.accept "+-".toList).2
    -- digits?
    acceptRun decimalDigits s.input s.buf
  else e.2

/-- The method ss.floatToken: the longest text at the head of the input that has the
shape of a float (it may still not be one); returns the state after it, the token
in the buffer. -/
def floatToken (input : List Char) : ss :=
  let s : ss := ⟨input, []⟩
  -- NaN?
  let n := s.accept3 "nN".toList "aA".toList "nN".toList
  if n.1 then n.2
  else
    -- leading sign?
    let s := (n.2.accept "+-".toList).2
    -- Inf?
    let i := s.accept3 "iI".toList "nN".toList "fF".toList
    if i.1 then i.2
    else
      -- digits?
      tokenExponent (tokenFraction (acceptRun decimalDigits i.2.input i.2.buf))

/-- The method ss.convertFloat at 64 bits: a token with a `p` is a decimal mantissa
and a power-of-two exponent, any other goes to strconv.ParseFloat. -/
def convertFloat (str : List Char) : Float64 × Option Error :=
  if 'p' ∈ str then
    let mantText := str.takeWhile (fun c => c != 'p')
    let expText := (str.dropWhile (fun c => c != 'p')).drop 1
    let f := ParseFloat mantText
    match f.2 with
    | some e => (f.1, some e)
    | none =>
      let m := Atoi expText
      match m.2 with
      | some e => (f.1, some e)
      | none => (Ldexp f.1 m.1, none)
  else ParseFloat str

def floatVerbs : List Char := "beEfFgGv".toList

/-- The method ss.scanOne for a `*float64` argument. -/
def scanOne (verb : Char) (input : List Char) : Except Error (Float64 × List Char) :=
  if verb ∈ floatVerbs then
    match SkipSpace input with
    | .error e => .error e
    | .ok [] => .error Error.EOF
    | .ok (r :: rest) =>
      let s := floatToken (r :: rest)
      let v := convertFloat s.buf
      match v.2 with
      | some e => .error e
      | none => .ok (v.1, s.input)
  else .error (Error.errorString "bad verb for float64")

/-- An element of a format string without space, width or `%%`. -/
inductive FormatItem
  | lit (c : Char)
  | verb (c : Char)
  deriving DecidableEq, Repr

/-- Splits such a format string into literal runes and verbs. -/
def parseFormat : List Char → List FormatItem
  | [] => []
  | [c] => [FormatItem.lit c]
  | c :: d :: rest =>
    if c = '%' then FormatItem.verb d :: parseFormat rest
    else FormatItem.lit c :: parseFormat (d :: rest)

/-- The method ss.doScanf with `*float64` arguments: `a` holds the values the
arguments point at, `n` is the number of arguments processed. An argument is
assigned as soon as its verb has been scanned, so a later failure leaves the
earlier assignments in place. -/
def doScanf : List FormatItem → List Char → List Float64 → Nat → List Float64 × Option Error
  | [], _, a, n =>
    (a, if n < a.length then some (Error.errorString "too many operands") else none)
  | FormatItem.lit c :: items, input, a, n =>
    match input with
    | [] => (a, some Error.ErrUnexpectedEOF)
    | r :: rest =>
      if r = c then doScanf items rest a n
      else (a, some (Error.errorString "input does not match format"))
  | FormatItem.verb c :: items, input, a, n =>
    match SkipSpace input with
    | .error e => (a, some e)
    | .ok input1 =>
      if a.length ≤ n then (a, some (Error.errorString "too few operands for format"))
      else
        match scanOne c input1 with
        | .error e => (a, some e)
        | .ok (v, input2) => doScanf items input2 (a.set n v) (n + 1)

/-- The function fmt.Sscanf with `*float64` arguments. Input left over when the
format is exhausted is not looked at. -/
def Sscanf (str : String) (format : String) (a : List Float64) : List Float64 × Option Error :=
  doScanf (parseFormat format.data) str.data a 0

/-! ## gateway.go: the point codec -/

/-- A value of database/sql/driver.Value. A byte slice is held as its text: the
runes fmt reads from it (a byte that is not UTF-8 reads as U+FFFD). -/
inductive DriverValue
  | null
  | int64 (v : Int)
  | float64 (v : Float64)
  | bool (v : Bool)
  | bytes (b : String)
  | string (s : String)
  | time (t : Int)
  deriving DecidableEq, Repr

/-- What the verb `%T` prints for a driver value. -/
def DriverValue.typeName : DriverValue → String
  | .null => "<nil>"
  | .int64 _ => "int64"
  | .float64 _ => "float64"
  | .bool _ => "bool"
  | .bytes _ => "[]uint8"
  | .string _ => "string"
  | .time _ => "time.Time"

/-- GPSPoint contains a GPS point. -/
structure GPSPoint where
  Latitude : Float64
  Longitude : Float64
  deriving DecidableEq, Repr

/-- Value implements the driver.Valuer interface. -/
def GPSPoint.Value (l : GPSPoint) : DriverValue × Option Error :=
  (DriverValue.string
    (String.mk ("(".toList ++ FormatFloat l.Latitude ++ ",".toList
      ++ FormatFloat l.Longitude ++ ")".toList)), none)

/-- Scan implements the sql.Scanner interface: the receiver after the call and
the error. -/
def GPSPoint.Scan (l : GPSPoint) (src : DriverValue) : GPSPoint × Option Error :=
  match src with
  | DriverValue.bytes b =>
    let r := Sscanf b "(%f,%f)" [l.Latitude, l.Longitude]
    (⟨r.1.getD 0 l.Latitude, r.1.getD 1 l.Longitude⟩, r.2)
  | _ => (l, some (Error.errorString ("expected []byte, got " ++ src.typeName)))

/-! ## gateway.go: the gateway and the handles it is stored through -/

/-- A lorawan.EUI64: eight bytes. -/
structure EUI64 where
  bytes : List (Fin 256)
  size : bytes.length = 8
  deriving DecidableEq, Repr

/-- A uuid.UUID: sixteen bytes. -/
structure UUID where
  bytes : List (Fin 256)
  size : bytes.length = 16
  deriving DecidableEq, Repr

/-- A lorawan.AES128Key: sixteen bytes. -/
structure AES128Key where
  bytes : List (Fin 256)
  size : bytes.length = 16
  deriving DecidableEq, Repr

/-- A time.Time, as the instant it names: nanoseconds since the zero time. -/
abbrev Time := Int

/-- Gateway represents a gateway. A nil pointer field is `none`. -/
structure Gateway where
  GatewayID : EUI64
  CreatedAt : Time
  UpdatedAt : Time
  FirstSeenAt : Option Time
  LastSeenAt : Option Time
  Location : GPSPoint
  Altitude : Float64
  GatewayProfileID : Option UUID
  FineTimestampAESKey : Option AES128Key
  FPGAID : Option EUI64
  deriving DecidableEq, Repr

/-- The zero value of Gateway (`var gw Gateway`). -/
def Gateway.zeroValue : Gateway :=
  { GatewayID := ⟨List.replicate 8 0, rfl⟩
    CreatedAt := 0
    UpdatedAt := 0
    FirstSeenAt := none
    LastSeenAt := none
    Location := ⟨Float64.zero false, Float64.zero false⟩
    Altitude := Float64.zero false
    GatewayProfileID := none
    FineTimestampAESKey := none
    FPGAID := none }

/-- The Gateway sqlx has prepared for a struct scan: the zero value with every pointer
field allocated (reflectx.FieldByIndexes allocates a nil pointer it passes), each
pointing at a zero value. -/
def Gateway.allocated : Gateway :=
  { Gateway.zeroValue with
    FirstSeenAt := some 0
    LastSeenAt := some 0
    GatewayProfileID := some ⟨List.replicate 16 0, rfl⟩
    FineTimestampAESKey := some ⟨List.replicate 16 0, rfl⟩
    FPGAID := some ⟨List.replicate 8 0, rfl⟩ }

/-- Validate validates the data of the gateway. -/
def Gateway.Validate (_g : Gateway) : Option Error := none

/-- The statements the package executes, each with its arguments in the order of
the placeholders `$1, $2, ...`:
`insert into gateway (gateway_id, created_at, updated_at, first_seen_at, last_seen_at,
location, altitude, gateway_profile_id, fine_timestamp_aes_key, fpga_id) values (...)`,
`update gateway set updated_at = $2, first_seen_at = $3, last_seen_at = $4, location = $5,
altitude = $6, gateway_profile_id = $7, fpga_id = $8, fine_timestamp_aes_key = $9
where gateway_id = $1` and `delete from gateway where gateway_id = $1`. -/
inductive Statement
  | insertGateway (gateway_id : EUI64) (created_at updated_at : Time)
      (first_seen_at last_seen_at : Option Time) (location : GPSPoint) (altitude : Float64)
      (gateway_profile_id : Option UUID) (fine_timestamp_aes_key : Option AES128Key)
      (fpga_id : Option EUI64)
  | updateGateway (gateway_id : EUI64) (updated_at : Time)
      (first_seen_at last_seen_at : Option Time) (location : GPSPoint) (altitude : Float64)
      (gateway_profile_id : Option UUID) (fpga_id : Option EUI64)
      (fine_timestamp_aes_key : Option AES128Key)
  | deleteGateway (gateway_id : EUI64)
  deriving DecidableEq, Repr

/-- The queries the package runs: `select * from gateway where gateway_id = $1` and
`select * from gateway where gateway_id = any($1)`. The ids are passed as byte
slices (`id[:]`), which hold the same eight bytes. -/
inductive Query
  | gatewayByID (id : EUI64)
  | gatewaysByIDs (ids : List EUI64)
  deriving DecidableEq, Repr

/-- A sql.Result, as far as the package uses it: what RowsAffected returns. -/
structure Result where
  RowsAffected : Int × Option Error
  deriving DecidableEq, Repr

/-- A row of table `gateway` as the driver hands it over: every column decoded
except `location`, which is the driver value GPSPoint.Scan gets. -/
structure Row where
  gateway_id : EUI64
  created_at : Time
  updated_at : Time
  first_seen_at : Option Time
  last_seen_at : Option Time
  location : DriverValue
  altitude : Float64
  gateway_profile_id : Option UUID
  fine_timestamp_aes_key : Option AES128Key
  fpga_id : Option EUI64
  deriving DecidableEq, Repr

/-- An sqlx.Execer whose state is a `σ`. -/
structure Execer (σ : Type) where
  Exec : Statement → σ → Except Error Result × σ

/-- An sqlx.Queryer whose state is a `σ`. -/
structure Queryer (σ : Type) where
  Queryx : Query → σ → Except Error (List Row) × σ

/-- An entry of the log: the message and its `gateway_id` field. -/
structure LogEntry where
  msg : String
  gateway_id : EUI64
  deriving DecidableEq, Repr

/-- A sample of a timer of the metrics registry: the timer's name, the labels of the
call and whether the timed function returned an error. The measured duration is
wall-clock time and is not part of the model. -/
structure Sample where
  timer : String
  labels : List (String × String)
  failed : Bool
  deriving DecidableEq, Repr

/-- Everything an operation can change: the state behind the database handle, the
log and the samples of the metrics registry. -/
structure World (σ : Type) where
  db : σ
  log : List LogEntry
  samples : List Sample
  deriving DecidableEq

/-- Modelled from the spec: handlePSQLError is declared in a file of the package that
is not in src. Zero matching rows is NotFound, a uniqueness violation is
AlreadyExists, any other failure wraps the cause under the description. -/
def handlePSQLError (err : Error) (description : String) : Option Error :=
  match err with
  | Error.ErrNoRows => some Error.ErrDoesNotExist
  | Error.pqError "unique_violation" => some Error.ErrAlreadyExists
  | e => some (Error.wrap e description)

/-- The struct scan of sqlx for one row into a zero Gateway. The columns are assigned
in the order of the table, `location` through GPSPoint.Scan. When that fails the scan
stops: the columns before `location` have been assigned, the location is what
GPSPoint.Scan left, and the fields after it are as sqlx prepared them. The error
database/sql then returns is a text made of the column and the cause; it is kept here
as the cause under that text. -/
def Row.scan (r : Row) : Gateway × Option Error :=
  let loc := Gateway.zeroValue.Location.Scan r.location
  match loc.2 with
  | some e =>
    ({ Gateway.allocated with
       GatewayID := r.gateway_id
       CreatedAt := r.created_at
       UpdatedAt := r.updated_at
       FirstSeenAt := r.first_seen_at
       LastSeenAt := r.last_seen_at
       Location := loc.1 },
      some (Error.wrap e "sql: Scan error on column index 5, name \"location\""))
  | none =>
    ({ GatewayID := r.gateway_id
       CreatedAt := r.created_at
       UpdatedAt := r.updated_at
       FirstSeenAt := r.first_seen_at
       LastSeenAt := r.last_seen_at
       Location := loc.1
       Altitude := r.altitude
       GatewayProfileID := r.gateway_profile_id
       FineTimestampAESKey := r.fine_timestamp_aes_key
       FPGAID := r.fpga_id }, none)

/-- Scans rows in order and stops at the first that fails. -/
def scanAll : List Row → List Gateway × Option Error
  | [] => ([], none)
  | r :: rs =>
    match r.scan.2 with
    | some e => ([], some e)
    | none =>
      let rest := scanAll rs
      (r.scan.1 :: rest.1, rest.2)

/-- The function sqlx.Get into a zero Gateway: the first row of the query. A query
that fails leaves the Gateway untouched; when there is no row the error is
sql.ErrNoRows and the Gateway is as sqlx prepared it for the scan. -/
def sqlxGet {σ : Type} (db : Queryer σ) (q : Query) (s : σ) : (Gateway × Option Error) × σ :=
  match db.Queryx q s with
  | (.error e, s') => ((Gateway.zeroValue, some e), s')
  | (.ok [], s') => ((Gateway.allocated, some Error.ErrNoRows), s')
  | (.ok (r :: _), s') => (r.scan, s')

/-- The function sqlx.Select into a slice of Gateway. -/
def sqlxSelect {σ : Type} (db : Queryer σ) (q : Query) (s : σ) :
    (List Gateway × Option Error) × σ :=
  match db.Queryx q s with
  | (.error e, s') => (([], some e), s')
  | (.ok rows, s') => (scanAll rows, s')

/-- CreateGateway creates the given gateway. Returns the gateway behind the pointer
after the call and the error. -/
def CreateGateway {σ : Type} (db : Execer σ) (now : Time) (gw : Gateway) (w : World σ) :
    (Gateway × Option Error) × World σ :=
  match gw.Validate with
  | some err => ((gw, some (Error.wrap err "validate error")), w)
  | none =>
    let r := db.Exec (Statement.insertGateway gw.GatewayID now now gw.FirstSeenAt
      gw.LastSeenAt gw.Location gw.Altitude gw.GatewayProfileID gw.FineTimestampAESKey
      gw.FPGAID) w.db
    match r.1 with
    | .error err => ((gw, handlePSQLError err "insert error"), { w with db := r.2 })
    | .ok _ =>
      (({ gw with CreatedAt := now, UpdatedAt := now }, none),
        { w with db := r.2, log := w.log ++ [⟨"gateway created", gw.GatewayID⟩] })

/-- GetGateway returns the gateway for the given Gateway ID. -/
def GetGateway {σ : Type} (db : Queryer σ) (id : EUI64) (w : World σ) :
    (Gateway × Option Error) × World σ :=
  let r := sqlxGet db (Query.gatewayByID id) w.db
  match r.1.2 with
  | some err => ((r.1.1, handlePSQLError err "select error"), { w with db := r.2 })
  | none => ((r.1.1, none), { w with db := r.2 })

/-- UpdateGateway updates the given gateway. -/
def UpdateGateway {σ : Type} (db : Execer σ) (now : Time) (gw : Gateway) (w : World σ) :
    (Gateway × Option Error) × World σ :=
  match gw.Validate with
  | some err => ((gw, some (Error.wrap err "validate error")), w)
  | none =>
    let r := db.Exec (Statement.updateGateway gw.GatewayID now gw.FirstSeenAt
      gw.LastSeenAt gw.Location gw.Altitude gw.GatewayProfileID gw.FPGAID
      gw.FineTimestampAESKey) w.db
    match r.1 with
    | .error err => ((gw, handlePSQLError err "update error"), { w with db := r.2 })
    | .ok res =>
      match res.RowsAffected.2 with
      | some err => ((gw, some (Error.wrap err "get rows affected error")), { w with db := r.2 })
      | none =>
        if res.RowsAffected.1 = 0 then ((gw, some Error.ErrDoesNotExist), { w with db := r.2 })
        else
          (({ gw with UpdatedAt := now }, none),
            { w with db := r.2, log := w.log ++ [⟨"gateway updated", gw.GatewayID⟩] })

/-- DeleteGateway deletes the gateway matching the given Gateway ID. -/
def DeleteGateway {σ : Type} (db : Execer σ) (id : EUI64) (w : World σ) :
    Option Error × World σ :=
  let r := db.Exec (Statement.deleteGateway id) w.db
  match r.1 with
  | .error err => (handlePSQLError err "delete error", { w with db := r.2 })
  | .ok res =>
    match res.RowsAffected.2 with
    | some err => (some (Error.wrap err "get rows affected error"), { w with db := r.2 })
    | none =>
      if res.RowsAffected.1 = 0 then (some Error.ErrDoesNotExist, { w with db := r.2 })
      else (none, { w with db := r.2, log := w.log ++ [⟨"gateway deleted", id⟩] })

/-- A Go `map[lorawan.EUI64]Gateway`: the entries, one for a key. -/
abbrev GatewayMap := List (EUI64 × Gateway)

/-- The assignment `m[k] = v`. -/
def GatewayMap.set (m : GatewayMap) (k : EUI64) (v : Gateway) : GatewayMap :=
  if m.any (fun p => p.1 == k) then m.map (fun p => if p.1 = k then (k, v) else p)
  else m ++ [(k, v)]

/-- The lookup `m[k]`. -/
def GatewayMap.get? : GatewayMap → EUI64 → Option Gateway
  | [], _ => none
  | p :: m, k => if p.1 = k then some p.2 else GatewayMap.get? m k

/-- The builtin `len(m)`. -/
def GatewayMap.len (m : GatewayMap) : Nat := m.length

/-- The error `fmt.Errorf("expected %d gateways, got %d", n, m)`. -/
def countMismatch (n m : Nat) : Error :=
  Error.errorString
    ("expected " ++ String.mk (natDigits n) ++ " gateways, got " ++ String.mk (natDigits m))

/-- GetGatewaysForIDs returns a map of gateways given a slice of IDs. A nil map
is `none`. -/
def GetGatewaysForIDs {σ : Type} (db : Queryer σ) (ids : List EUI64) (w : World σ) :
    (Option GatewayMap × Option Error) × World σ :=
  let out : GatewayMap := []
  let idsB := ids
  let r := sqlxSelect db (Query.gatewaysByIDs idsB) w.db
  match r.1.2 with
  | some err => ((none, handlePSQLError err "select error"), { w with db := r.2 })
  | none =>
    let gws := r.1.1
    if gws.length ≠ ids.length then
      ((none, some (countMismatch ids.length out.len)), { w with db := r.2 })
    else
      ((some (gws.foldl (fun out g => out.set g.GatewayID g) out), none), { w with db := r.2 })

/-! ## storage.go -/

/-- Modelled from the spec: metrics.MustRegisterNewTimerWithError is in package
internal/metrics, which is not in src. The timer it returns runs the function once,
records one sample under the call's labels with the success or failure of the
function, and returns the function's error unchanged. -/
def MustRegisterNewTimerWithError {σ : Type} (name _help : String) (_labels : List String) :
    List (String × String) → (World σ → Option Error × World σ) →
      World σ → Option Error × World σ :=
  fun l f w =>
    let r := f w
    (r.1, { r.2 with samples := r.2.samples ++ [⟨name, l, r.1.isSome⟩] })

/-- The package variable queryTimer as init() sets it. -/
def queryTimer {σ : Type} (fName : String) (f : World σ → Option Error × World σ) :
    World σ → Option Error × World σ :=
  MustRegisterNewTimerWithError "storage_function_query_duration"
    "Per internal/storage function query duration tracking." ["function"]
    [("function", fName)] f

/-! ## The store as a table keyed by gateway_id -/

/-- The table `gateway`: its rows, at most one for a `gateway_id`. -/
abbrev Table := List Row

/-- A text column comes back from the store as the bytes of the text it was given. -/
def asColumn : DriverValue → DriverValue
  | DriverValue.string s => DriverValue.bytes s
  | v => v

/-- The table as executor. `q` is what the store makes of a timestamp (its
precision). The primary key refuses a second row for a `gateway_id`; `location` is
stored as the driver value GPSPoint.Value gives. -/
def Table.Exec (q : Time → Time) : Statement → Table → Except Error Result × Table
  | Statement.insertGateway id c u fs ls loc alt gp key fpga, t =>
    if t.any (fun r => r.gateway_id == id) then
      (.error (Error.pqError "unique_violation"), t)
    else
      (.ok ⟨(1, none)⟩,
        t ++ [{ gateway_id := id, created_at := q c, updated_at := q u,
                first_seen_at := fs.map q, last_seen_at := ls.map q,
                location := asColumn loc.Value.1, altitude := alt,
                gateway_profile_id := gp, fine_timestamp_aes_key := key, fpga_id := fpga }])
  | Statement.updateGateway id u fs ls loc alt gp fpga key, t =>
    (.ok ⟨(((t.filter (fun r => r.gateway_id == id)).length : Int), none)⟩,
      t.map (fun r =>
        if r.gateway_id = id then
          { r with updated_at := q u, first_seen_at := fs.map q, last_seen_at := ls.map q,
                   location := asColumn loc.Value.1, altitude := alt,
                   gateway_profile_id := gp, fpga_id := fpga,
                   fine_timestamp_aes_key := key }
        else r))
  | Statement.deleteGateway id, t =>
    (.ok ⟨(((t.filter (fun r => r.gateway_id == id)).length : Int), none)⟩,
      t.filter (fun r => !(r.gateway_id == id)))

/-- The table as queryer. -/
def Table.Queryx : Query → Table → Except Error (List Row) × Table
  | Query.gatewayByID id, t => (.ok (t.filter (fun r => r.gateway_id == id)), t)
  | Query.gatewaysByIDs ids, t => (.ok (t.filter (fun r => ids.contains r.gateway_id)), t)

def tableExecer (q : Time → Time) : Execer Table := ⟨Table.Exec q⟩

def tableQueryer : Queryer Table := ⟨Table.Queryx⟩

/-! ## Values used in examples -/

/-- The gateway id of the package's test. -/
def testID : EUI64 := ⟨[29, 238, 8, 208, 182, 145, 209, 73], rfl⟩

def otherID : EUI64 := ⟨[1, 2, 3, 4, 5, 6, 7, 8], rfl⟩

/-- The gateway of the package's test: location (1.23456789, 4.56789012). -/
def testGateway : Gateway :=
  { Gateway.zeroValue with
    GatewayID := testID
    Location := ⟨Float64.ofFields false 1023 1056399861997083,
                 Float64.ofFields false 1025 639387433204847⟩ }

/-- A store that keeps timestamps as given. -/
def asGiven (t : Time) : Time := t

/-- The world after the test gateway has been created at time 5 in an empty table. -/
def testWorld : World Table :=
  (CreateGateway (tableExecer asGiven) 5 testGateway ⟨[], [], []⟩).2


/-- A call in a history of the table: CreateGateway or UpdateGateway, with the time
time.Now() returns during the call and the caller's gateway. -/
inductive Call
  | create (now : Time) (gw : Gateway)
  | update (now : Time) (gw : Gateway)
  deriving DecidableEq, Repr

/-- The clock reading of a call. -/
def Call.now : Call → Time
  | Call.create now _ => now
  | Call.update now _ => now

/-- The world after a call on the table. -/
def Call.run (q : Time → Time) : Call → World Table → World Table
  | Call.create now gw, w => (CreateGateway (tableExecer q) now gw w).2
  | Call.update now gw, w => (UpdateGateway (tableExecer q) now gw w).2

/-- The world after a sequence of calls. -/
def runCalls (q : Time → Time) (calls : List Call) (w : World Table) : World Table :=
  calls.foldl (fun w c => c.run q w) w

/-- What the table guarantees at clock reading `T`: one row for a `gateway_id`, and in
every row created_at ≤ updated_at ≤ the stored form of `T`. -/
def TableInv (q : Time → Time) (T : Time) (t : Table) : Prop :=
  (t.map (fun r => r.gateway_id)).Nodup ∧
    ∀ r ∈ t, r.created_at ≤ r.updated_at ∧ r.updated_at ≤ q T

/-- The row an update leaves in place of `r`. -/
def updatedRow (q : Time → Time) (now : Time) (gw : Gateway) (r : Row) : Row :=
  { gateway_id := r.gateway_id
    created_at := r.created_at
    updated_at := q now
    first_seen_at := gw.FirstSeenAt.map q
    last_seen_at := gw.LastSeenAt.map q
    location := asColumn gw.Location.Value.1
    altitude := gw.Altitude
    gateway_profile_id := gw.GatewayProfileID
    fine_timestamp_aes_key := gw.FineTimestampAESKey
    fpga_id := gw.FPGAID }

/-- Store precision of one microsecond: timestamps are cut to a multiple of 1000 ns. -/
def microseconds (t : Time) : Time := t - t % 1000

/-- The runes a float token is made of. -/
def floatRunes : List Char := "nNaA+-iIfF0123456789.eEp".toList

/-- Blank space as the scan skips it before a number: space runes, and no newline
among them. -/
def blank (ws : List Char) : Prop := ∀ c ∈ ws, isSpace c = true ∧ c ≠ '\n'

/-- A number as the verb `%f` takes it: a text that the token scanner of fmt reads to
its last rune and that the conversion of fmt accepts. -/
def number (t : List Char) : Prop :=
  floatToken t = ⟨[], t⟩ ∧ (convertFloat t).2 = none

/-- The texts GPSPoint.Scan takes without error: `(`, then blank space and a number,
`,`, then blank space and a number, `)`, then anything. -/
def scannable (s : List Char) : Prop :=
  ∃ ws1 t1 ws2 t2 rest,
    s = '(' :: (ws1 ++ t1 ++ ',' :: (ws2 ++ t2 ++ ')' :: rest)) ∧
    blank ws1 ∧ blank ws2 ∧ number t1 ∧ number t2

/-- The scanner state `s` with the text `more` to read after its input. -/
def ss.extend (s : ss) (more : List Char) : ss := ⟨s.input ++ more, s.buf⟩

/-- What the token scanner keeps from state `s` to state `s'`: the text read so far
followed by the text left is unchanged, and the buffer has grown by float runes. -/
def tokenStep (s s' : ss) : Prop :=
  s'.buf ++ s'.input = s.buf ++ s.input ∧
    ∃ add, s'.buf = s.buf ++ add ∧ ∀ c ∈ add, c ∈ floatRunes

/-- The rational `q` lies between the bounds of `x`, a bound itself only for an even
significand: these are the numbers round-to-nearest-even takes to `x`. -/
def Float64.within (x : Float64) (q : ℚ) : Prop :=
  (x.lower.1 : ℚ) * (2 : ℚ) ^ x.lower.2 ≤ q ∧ q ≤ (x.upper.1 : ℚ) * (2 : ℚ) ^ x.upper.2 ∧
    (x.mant % 2 = 1 →
      (x.lower.1 : ℚ) * (2 : ℚ) ^ x.lower.2 < q ∧ q < (x.upper.1 : ℚ) * (2 : ℚ) ^ x.upper.2)

/-! ## The operations over any executor -/

theorem handlePSQLError_ne_none (e : Error) (d : String) : handlePSQLError e d ≠ none := by
  unfold handlePSQLError
  split <;> simp

theorem scanAll_length (rows : List Row) (h : (scanAll rows).2 = none) :
    (scanAll rows).1.length = rows.length := by
  induction rows with
  | nil => rfl
  | cons r rs ih =>
    unfold scanAll at h ⊢
    cases hr : r.scan.2 with
    | some e => simp [hr] at h
    | none =>
      simp only [hr] at h ⊢
      simp [ih h]

theorem sqlxSelect_of_rows {σ : Type} (db : Queryer σ) (q : Query) (s : σ) (rows : List Row)
    (h : (db.Queryx q s).1 = .ok rows) :
    sqlxSelect db q s = (scanAll rows, (db.Queryx q s).2) := by
  unfold sqlxSelect
  rcases hx : db.Queryx q s with ⟨r, s'⟩
  rw [hx] at h
  simp only at h
  subst h
  rfl

/-- C3: when the query answers with fewer rows than ids were requested, GetGatewaysForIDs
returns a nil map together with a non-nil error. -/
theorem GetGatewaysForIDs_no_partial_result {σ : Type} (db : Queryer σ) (ids : List EUI64)
    (w : World σ) (rows : List Row)
    (hq : (db.Queryx (Query.gatewaysByIDs ids) w.db).1 = .ok rows)
    (hlt : rows.length < ids.length) :
    (GetGatewaysForIDs db ids w).1.1 = none ∧ (GetGatewaysForIDs db ids w).1.2 ≠ none := by
  unfold GetGatewaysForIDs
  simp only
  cases hsel : (sqlxSelect db (Query.gatewaysByIDs ids) w.db).1.2 with
  | some e => simp [handlePSQLError_ne_none]
  | none =>
    have hlen : (sqlxSelect db (Query.gatewaysByIDs ids) w.db).1.1.length
        = rows.length := by
      rw [sqlxSelect_of_rows db _ _ rows hq] at hsel ⊢
      exact scanAll_length rows hsel
    have hne : (sqlxSelect db (Query.gatewaysByIDs ids) w.db).1.1.length
        ≠ ids.length := by omega
    simp [hne]

theorem GetGatewaysForIDs_no_partial_result_witness :
    (GetGatewaysForIDs tableQueryer [testID, otherID] testWorld).1.1 = none ∧
    (GetGatewaysForIDs tableQueryer [testID, otherID] testWorld).1.2 ≠ none :=
  GetGatewaysForIDs_no_partial_result tableQueryer [testID, otherID] testWorld
    testWorld.db (by decide) (by decide)

/-- C10: one of two requested ids is stored, the query answers with one row, and the
error reads "got 0", not "got 1". -/
theorem GetGatewaysForIDs_mismatch_message :
    (tableQueryer.Queryx (Query.gatewaysByIDs [testID, otherID]) testWorld.db).1
      = .ok testWorld.db ∧
    testWorld.db.length = 1 ∧
    (GetGatewaysForIDs tableQueryer [testID, otherID] testWorld).1.2
      = some (Error.errorString "expected 2 gateways, got 0") := by
  decide

/-- C6: when the statement runs without error and RowsAffected reports `n`, UpdateGateway
and DeleteGateway return ErrDoesNotExist for `n = 0` and nil for `n = 1`; on the table,
updating or deleting an id that has no row returns ErrDoesNotExist. -/
theorem rows_affected_check {σ : Type} (db : Execer σ) (now : Time) (gw : Gateway)
    (id : EUI64) (w : World σ) :
    (∀ (res : Result) (n : Int),
      (db.Exec (Statement.updateGateway gw.GatewayID now gw.FirstSeenAt gw.LastSeenAt
        gw.Location gw.Altitude gw.GatewayProfileID gw.FPGAID gw.FineTimestampAESKey) w.db).1
          = .ok res →
      res.RowsAffected = (n, none) →
        (n = 0 → (UpdateGateway db now gw w).1.2 = some Error.ErrDoesNotExist) ∧
        (n = 1 → (UpdateGateway db now gw w).1.2 = none)) ∧
    (∀ (res : Result) (n : Int),
      (db.Exec (Statement.deleteGateway id) w.db).1 = .ok res →
      res.RowsAffected = (n, none) →
        (n = 0 → (DeleteGateway db id w).1 = some Error.ErrDoesNotExist) ∧
        (n = 1 → (DeleteGateway db id w).1 = none)) ∧
    (∀ (q : Time → Time) (wt : World Table),
      (∀ r ∈ wt.db, r.gateway_id ≠ gw.GatewayID) →
        (UpdateGateway (tableExecer q) now gw wt).1.2 = some Error.ErrDoesNotExist) ∧
    (∀ (q : Time → Time) (wt : World Table),
      (∀ r ∈ wt.db, r.gateway_id ≠ id) →
        (DeleteGateway (tableExecer q) id wt).1 = some Error.ErrDoesNotExist) := by
  refine ⟨?_, ?_, ?_, ?_⟩
  · intro res n hU hUn
    constructor
    · intro h0
      simp [UpdateGateway, Gateway.Validate, hU, hUn, h0]
    · intro h1
      simp [UpdateGateway, Gateway.Validate, hU, hUn, h1]
  · intro res n hD hDn
    constructor
    · intro h0
      simp [DeleteGateway, hD, hDn, h0]
    · intro h1
      simp [DeleteGateway, hD, hDn, h1]
  · intro q wt hno
    have hf : wt.db.filter (fun r => r.gateway_id == gw.GatewayID) = [] := by
      rw [List.filter_eq_nil_iff]
      intro r hr
      simpa using hno r hr
    simp [UpdateGateway, Gateway.Validate, tableExecer, Table.Exec, hf]
  · intro q wt hno
    have hf : wt.db.filter (fun r => r.gateway_id == id) = [] := by
      rw [List.filter_eq_nil_iff]
      intro r hr
      simpa using hno r hr
    simp [DeleteGateway, tableExecer, Table.Exec, hf]

theorem rows_affected_check_witness :
    (UpdateGateway (tableExecer asGiven) 9 testGateway testWorld).1.2 = none ∧
    (DeleteGateway (tableExecer asGiven) testID testWorld).1 = none ∧
    (DeleteGateway (tableExecer asGiven) otherID testWorld).1 = some Error.ErrDoesNotExist ∧
    (UpdateGateway (tableExecer asGiven) 9 testGateway ⟨[], [], []⟩).1.2
      = some Error.ErrDoesNotExist :=
  have h := rows_affected_check (tableExecer asGiven) 9 testGateway otherID testWorld
  have h' := rows_affected_check (tableExecer asGiven) 9 testGateway testID testWorld
  ⟨(h.1 ⟨(1, none)⟩ 1 (by decide) rfl).2 rfl,
    (h'.2.1 ⟨(1, none)⟩ 1 (by decide) rfl).2 rfl,
    (h.2.1 ⟨(0, none)⟩ 0 (by decide) rfl).1 rfl,
    h.2.2.1 asGiven ⟨[], [], []⟩ (by simp)⟩

/-- C7: CreateGateway runs one statement, the insert with `now` for both created_at
and updated_at. When it succeeds the caller's gateway gets CreatedAt = UpdatedAt = now
and keeps every other field; when it fails the error is non-nil and the caller's
gateway is unchanged. -/
theorem CreateGateway_mutates_timestamps_only {σ : Type} (db : Execer σ) (now : Time)
    (gw : Gateway) (w : World σ) :
    (∀ res, (db.Exec (Statement.insertGateway gw.GatewayID now now gw.FirstSeenAt
        gw.LastSeenAt gw.Location gw.Altitude gw.GatewayProfileID gw.FineTimestampAESKey
        gw.FPGAID) w.db).1 = .ok res →
      (CreateGateway db now gw w).1.2 = none ∧
      (CreateGateway db now gw w).1.1 = { gw with CreatedAt := now, UpdatedAt := now } ∧
      (CreateGateway db now gw w).1.1.CreatedAt = now ∧
      (CreateGateway db now gw w).1.1.UpdatedAt = now) ∧
    (∀ e, (db.Exec (Statement.insertGateway gw.GatewayID now now gw.FirstSeenAt
        gw.LastSeenAt gw.Location gw.Altitude gw.GatewayProfileID gw.FineTimestampAESKey
        gw.FPGAID) w.db).1 = .error e →
      (CreateGateway db now gw w).1.2 ≠ none ∧ (CreateGateway db now gw w).1.1 = gw) ∧
    (CreateGateway db now gw w).2.db =
      (db.Exec (Statement.insertGateway gw.GatewayID now now gw.FirstSeenAt
        gw.LastSeenAt gw.Location gw.Altitude gw.GatewayProfileID gw.FineTimestampAESKey
        gw.FPGAID) w.db).2 := by
  refine ⟨?_, ?_, ?_⟩
  · intro res h
    simp [CreateGateway, Gateway.Validate, h]
  · intro e h
    simp [CreateGateway, Gateway.Validate, h, handlePSQLError_ne_none]
  · simp only [CreateGateway, Gateway.Validate]
    split <;> rfl

theorem GatewayMap_foldl_set (gws : List Gateway) (acc : GatewayMap)
    (hnd : (gws.map (fun g => g.GatewayID)).Nodup)
    (hdis : ∀ g ∈ gws, ∀ p ∈ acc, p.1 ≠ g.GatewayID) :
    gws.foldl (fun out g => GatewayMap.set out g.GatewayID g) acc
      = acc ++ gws.map (fun g => (g.GatewayID, g)) := by
  induction gws generalizing acc with
  | nil => simp
  | cons g gs ih =>
    simp only [List.map_cons, List.nodup_cons] at hnd
    have hany : acc.any (fun p => p.1 == g.GatewayID) = false := by
      rw [List.any_eq_false]
      intro p hp
      simpa using hdis g (List.mem_cons_self _ _) p hp
    have hset : GatewayMap.set acc g.GatewayID g = acc ++ [(g.GatewayID, g)] := by
      simp [GatewayMap.set, hany]
    rw [List.foldl_cons, hset, ih _ hnd.2]
    · simp
    · intro g' hg' p hp
      rcases List.mem_append.1 hp with hp | hp
      · exact hdis g' (List.mem_cons_of_mem _ hg') p hp
      · simp only [List.mem_singleton] at hp
        subst hp
        intro heq
        exact hnd.1 (List.mem_map.2 ⟨g', hg', heq.symm⟩)

theorem GatewayMap_get_of_mem (gws : List Gateway)
    (hnd : (gws.map (fun g => g.GatewayID)).Nodup) (g : Gateway) (hg : g ∈ gws) :
    GatewayMap.get? (gws.map (fun g => (g.GatewayID, g))) g.GatewayID = some g := by
  induction gws with
  | nil => cases hg
  | cons a as ih =>
    simp only [List.map_cons, List.nodup_cons] at hnd
    rcases List.mem_cons.1 hg with h | h
    · subst h
      simp [GatewayMap.get?]
    · have hne : a.GatewayID ≠ g.GatewayID := by
        intro heq
        exact hnd.1 (List.mem_map.2 ⟨g, h, heq.symm⟩)
      simp only [List.map_cons, GatewayMap.get?, hne, if_false]
      exact ih hnd.2 h

theorem GatewayMap_get_some (gws : List Gateway) (k : EUI64) (g : Gateway)
    (h : GatewayMap.get? (gws.map (fun g => (g.GatewayID, g))) k = some g) :
    g ∈ gws ∧ g.GatewayID = k := by
  induction gws with
  | nil => simp [GatewayMap.get?] at h
  | cons a as ih =>
    simp only [List.map_cons, GatewayMap.get?] at h
    by_cases hk : a.GatewayID = k
    · simp only [hk, if_true, Option.some.injEq] at h
      subst h
      exact ⟨List.mem_cons_self _ _, hk⟩
    · simp only [hk, if_false] at h
      have := ih h
      exact ⟨List.mem_cons_of_mem _ this.1, this.2⟩

/-- C2 (as amended): when the select returns exactly one gateway for each distinct
requested id, GetGatewaysForIDs succeeds if the list of ids has no repetition, with a
map whose keys are the requested ids, each mapped to the gateway returned for it; if
an id is repeated it returns a nil map and the count-mismatch error. -/
theorem GetGatewaysForIDs_counts_ids_as_list {σ : Type} (db : Queryer σ) (ids : List EUI64)
    (w : World σ) (gws : List Gateway)
    (hsel : (sqlxSelect db (Query.gatewaysByIDs ids) w.db).1 = (gws, none))
    (hone : (gws.map (fun g => g.GatewayID)).Nodup)
    (hall : ∀ k, k ∈ gws.map (fun g => g.GatewayID) ↔ k ∈ ids) :
    (ids.Nodup → ∃ m : GatewayMap,
      (GetGatewaysForIDs db ids w).1 = (some m, none) ∧
      (∀ k, (m.get? k).isSome ↔ k ∈ ids) ∧
      (∀ g ∈ gws, m.get? g.GatewayID = some g) ∧
      (∀ k g, m.get? k = some g → g ∈ gws ∧ g.GatewayID = k)) ∧
    (¬ ids.Nodup →
      (GetGatewaysForIDs db ids w).1 = (none, some (countMismatch ids.length 0))) := by
  have hsub : (gws.map (fun g => g.GatewayID)).Subperm ids :=
    List.subperm_of_subset hone (fun k hk => (hall k).1 hk)
  have hlen : gws.length ≤ ids.length := by
    simpa using hsub.length_le
  have h1 : (sqlxSelect db (Query.gatewaysByIDs ids) w.db).1.1 = gws := by rw [hsel]
  have h2 : (sqlxSelect db (Query.gatewaysByIDs ids) w.db).1.2 = none := by rw [hsel]
  constructor
  · intro hnd
    have hsub' : ids.Subperm (gws.map (fun g => g.GatewayID)) :=
      List.subperm_of_subset hnd (fun k hk => (hall k).2 hk)
    have hge : ids.length ≤ gws.length := by
      simpa using hsub'.length_le
    have heq : gws.length = ids.length := le_antisymm hlen hge
    refine ⟨gws.map (fun g => (g.GatewayID, g)), ?_, ?_, ?_, ?_⟩
    · simp only [GetGatewaysForIDs, h1, h2, heq, ne_eq, not_true_eq_false, if_false]
      rw [GatewayMap_foldl_set gws [] hone (by simp)]
      simp
    · intro k
      rw [← hall k]
      constructor
      · intro hk
        obtain ⟨g, hg⟩ := Option.isSome_iff_exists.1 hk
        have := GatewayMap_get_some gws k g hg
        exact List.mem_map.2 ⟨g, this.1, this.2⟩
      · intro hk
        obtain ⟨g, hg, hgk⟩ := List.mem_map.1 hk
        have := GatewayMap_get_of_mem gws hone g hg
        rw [← hgk, this]
        rfl
    · intro g hg
      exact GatewayMap_get_of_mem gws hone g hg
    · intro k g h
      exact GatewayMap_get_some gws k g h
  · intro hnd
    have hne : gws.length ≠ ids.length := by
      intro heq
      have hp : (gws.map (fun g => g.GatewayID)).Perm ids :=
        hsub.perm_of_length_le (by simp [heq])
      exact hnd (hp.nodup_iff.1 hone)
    simp [GetGatewaysForIDs, h1, h2, hne, GatewayMap.len]

theorem GetGatewaysForIDs_counts_ids_as_list_witness :
    (∃ m : GatewayMap,
      (GetGatewaysForIDs tableQueryer [testID] testWorld).1 = (some m, none) ∧
      (∀ k, (m.get? k).isSome ↔ k ∈ [testID])) ∧
    (GetGatewaysForIDs tableQueryer [testID, testID] testWorld).1
      = (none, some (countMismatch 2 0)) :=
  have h1 := GetGatewaysForIDs_counts_ids_as_list tableQueryer [testID] testWorld
    [{ testGateway with CreatedAt := 5, UpdatedAt := 5 }] (by decide) (by decide)
    (by intro k; simp [testGateway])
  have h2 := GetGatewaysForIDs_counts_ids_as_list tableQueryer [testID, testID] testWorld
    [{ testGateway with CreatedAt := 5, UpdatedAt := 5 }] (by decide) (by decide)
    (by intro k; simp [testGateway])
  ⟨(h1.1 (by decide)).imp fun _ hm => ⟨hm.1, hm.2.1⟩, h2.2 (by decide)⟩

/-- C2, as stated, fails: the one requested id is stored and the select returns its row,
but the id is listed twice and the call returns a nil map and an error. -/
theorem GetGatewaysForIDs_repeated_id_fails :
    (tableQueryer.Queryx (Query.gatewaysByIDs [testID, testID]) testWorld.db).1
      = .ok testWorld.db ∧
    testWorld.db.map (fun r => r.gateway_id) = [testID] ∧
    (GetGatewaysForIDs tableQueryer [testID, testID] testWorld).1
      = (none, some (Error.errorString "expected 2 gateways, got 0")) := by
  decide

/-- C5, as stated, fails: creating the test gateway succeeds and records no sample. -/
theorem CreateGateway_records_no_sample :
    (CreateGateway (tableExecer asGiven) 5 testGateway ⟨[], [], []⟩).1.2 = none ∧
    (CreateGateway (tableExecer asGiven) 5 testGateway ⟨[], [], []⟩).2.samples = [] := by
  decide

/-- C5 (as amended): queryTimer runs the function it is given, records exactly one
sample labelled with the function name and the outcome, and returns the function's
error unchanged; the five operations do not go through it and record no sample. -/
theorem operations_record_no_sample {σ : Type} (dbE : Execer σ) (dbQ : Queryer σ)
    (now : Time) (gw : Gateway) (id : EUI64) (ids : List EUI64) (w : World σ)
    (fName : String) (f : World σ → Option Error × World σ) :
    (queryTimer fName f w).1 = (f w).1 ∧
    (queryTimer fName f w).2.samples = (f w).2.samples ++
      [⟨"storage_function_query_duration", [("function", fName)], (f w).1.isSome⟩] ∧
    (queryTimer fName f w).2.db = (f w).2.db ∧
    (queryTimer fName f w).2.log = (f w).2.log ∧
    (CreateGateway dbE now gw w).2.samples = w.samples ∧
    (GetGateway dbQ id w).2.samples = w.samples ∧
    (UpdateGateway dbE now gw w).2.samples = w.samples ∧
    (DeleteGateway dbE id w).2.samples = w.samples ∧
    (GetGatewaysForIDs dbQ ids w).2.samples = w.samples := by
  refine ⟨rfl, rfl, rfl, rfl, ?_, ?_, ?_, ?_, ?_⟩
  · simp only [CreateGateway, Gateway.Validate]
    split <;> rfl
  · simp only [GetGateway]
    split <;> rfl
  · simp only [UpdateGateway, Gateway.Validate]
    split
    · rfl
    · split
      · rfl
      · split <;> rfl
  · simp only [DeleteGateway]
    split
    · rfl
    · split
      · rfl
      · split <;> rfl
  · simp only [GetGatewaysForIDs]
    split
    · rfl
    · split <;> rfl

/-! ## Histories of the table -/

theorem UpdateGateway_db {σ : Type} (db : Execer σ) (now : Time) (gw : Gateway) (w : World σ) :
    (UpdateGateway db now gw w).2.db =
      (db.Exec (Statement.updateGateway gw.GatewayID now gw.FirstSeenAt gw.LastSeenAt
        gw.Location gw.Altitude gw.GatewayProfileID gw.FPGAID gw.FineTimestampAESKey) w.db).2 := by
  simp only [UpdateGateway, Gateway.Validate]
  split
  · rfl
  · split
    · rfl
    · split <;> rfl

theorem CreateGateway_db {σ : Type} (db : Execer σ) (now : Time) (gw : Gateway) (w : World σ) :
    (CreateGateway db now gw w).2.db =
      (db.Exec (Statement.insertGateway gw.GatewayID now now gw.FirstSeenAt gw.LastSeenAt
        gw.Location gw.Altitude gw.GatewayProfileID gw.FineTimestampAESKey gw.FPGAID) w.db).2 := by
  simp only [CreateGateway, Gateway.Validate]
  split <;> rfl

theorem UpdateGateway_table_db (q : Time → Time) (now : Time) (gw : Gateway) (w : World Table) :
    (UpdateGateway (tableExecer q) now gw w).2.db =
      w.db.map (fun r => if r.gateway_id = gw.GatewayID then updatedRow q now gw r else r) := by
  rw [UpdateGateway_db]
  rfl

theorem UpdateGateway_table_ok (q : Time → Time) (now : Time) (gw : Gateway) (w : World Table)
    (h : (UpdateGateway (tableExecer q) now gw w).1.2 = none) :
    ∃ r ∈ w.db, r.gateway_id = gw.GatewayID := by
  by_contra hno
  push_neg at hno
  have hf : w.db.filter (fun r => r.gateway_id == gw.GatewayID) = [] := by
    rw [List.filter_eq_nil_iff]
    intro r hr
    simpa using hno r hr
  simp [UpdateGateway, Gateway.Validate, tableExecer, Table.Exec, hf] at h

theorem CreateGateway_table_db (q : Time → Time) (now : Time) (gw : Gateway) (w : World Table) :
    (CreateGateway (tableExecer q) now gw w).2.db =
      if w.db.any (fun r => r.gateway_id == gw.GatewayID) then w.db
      else w.db ++ [{ gateway_id := gw.GatewayID, created_at := q now, updated_at := q now,
                      first_seen_at := gw.FirstSeenAt.map q, last_seen_at := gw.LastSeenAt.map q,
                      location := asColumn gw.Location.Value.1, altitude := gw.Altitude,
                      gateway_profile_id := gw.GatewayProfileID,
                      fine_timestamp_aes_key := gw.FineTimestampAESKey, fpga_id := gw.FPGAID }] := by
  rw [CreateGateway_db]
  simp only [tableExecer, Table.Exec]
  split <;> rfl

theorem row_eq_of_id {t : Table} (hnd : (t.map (fun r => r.gateway_id)).Nodup) {r r' : Row}
    (hr : r ∈ t) (hr' : r' ∈ t) (hid : r'.gateway_id = r.gateway_id) : r' = r :=
  List.inj_on_of_nodup_map hnd hr' hr hid

theorem TableInv_mono (q : Time → Time) (hq : Monotone q) {T T' : Time} (hT : T ≤ T')
    {t : Table} (h : TableInv q T t) : TableInv q T' t :=
  ⟨h.1, fun r hr => ⟨(h.2 r hr).1, le_trans (h.2 r hr).2 (hq hT)⟩⟩

theorem Call_run_step (q : Time → Time) (hq : Monotone q) (c : Call) (w : World Table)
    (T : Time) (hT : T ≤ c.now) (h : TableInv q T w.db) :
    TableInv q c.now (c.run q w).db ∧
    ∀ r ∈ w.db, ∀ r' ∈ (c.run q w).db, r'.gateway_id = r.gateway_id →
      r.updated_at ≤ r'.updated_at ∧ r'.created_at = r.created_at := by
  have h' := TableInv_mono q hq hT h
  cases c with
  | create now gw =>
    simp only [Call.run, Call.now] at *
    rw [CreateGateway_table_db]
    by_cases hany : w.db.any (fun r => r.gateway_id == gw.GatewayID)
    · simp only [hany, if_true]
      refine ⟨h', ?_⟩
      intro r hr r' hr' hid
      have := row_eq_of_id h.1 hr hr' hid
      subst this
      exact ⟨le_refl _, rfl⟩
    · simp only [hany]
      have hfresh : ∀ r ∈ w.db, r.gateway_id ≠ gw.GatewayID := by
        intro r hr heq
        apply hany
        rw [List.any_eq_true]
        exact ⟨r, hr, by simpa using heq⟩
      refine ⟨⟨?_, ?_⟩, ?_⟩
      · simp only [Bool.false_eq_true, if_false, List.map_append, List.map_cons, List.map_nil]
        rw [List.nodup_append]
        refine ⟨h.1, List.nodup_singleton _, ?_⟩
        intro k hk hk'
        simp only [List.mem_singleton] at hk'
        obtain ⟨r, hr, hrk⟩ := List.mem_map.1 hk
        exact hfresh r hr (hrk.trans hk')
      · intro r hr
        simp only [Bool.false_eq_true, if_false, List.mem_append, List.mem_singleton] at hr
        rcases hr with hr | hr
        · exact h'.2 r hr
        · subst hr
          exact ⟨le_refl _, le_refl _⟩
      · intro r hr r' hr' hid
        simp only [Bool.false_eq_true, if_false, List.mem_append, List.mem_singleton] at hr'
        rcases hr' with hr' | hr'
        · have := row_eq_of_id h.1 hr hr' hid
          subst this
          exact ⟨le_refl _, rfl⟩
        · subst hr'
          exact absurd hid.symm (hfresh r hr)
  | update now gw =>
    simp only [Call.run, Call.now] at *
    rw [UpdateGateway_table_db]
    have hids : (w.db.map (fun r => if r.gateway_id = gw.GatewayID then updatedRow q now gw r
        else r)).map (fun r => r.gateway_id) = w.db.map (fun r => r.gateway_id) := by
      rw [List.map_map]
      apply List.map_congr_left
      intro r _
      simp only [Function.comp]
      split <;> rfl
    refine ⟨⟨by rw [hids]; exact h.1, ?_⟩, ?_⟩
    · intro r hr
      obtain ⟨r0, hr0, hrr⟩ := List.mem_map.1 hr
      by_cases hid : r0.gateway_id = gw.GatewayID
      · simp only [hid, if_true] at hrr
        subst hrr
        have := h'.2 r0 hr0
        exact ⟨le_trans this.1 this.2, le_refl _⟩
      · simp only [hid, if_false] at hrr
        subst hrr
        exact h'.2 r0 hr0
    · intro r hr r' hr' hid
      obtain ⟨r0, hr0, hrr⟩ := List.mem_map.1 hr'
      have hid0 : r0.gateway_id = r.gateway_id := by
        rw [← hid, ← hrr]
        split <;> rfl
      have := row_eq_of_id h.1 hr hr0 hid0
      subst this
      by_cases hg : r0.gateway_id = gw.GatewayID
      · simp only [hg, if_true] at hrr
        subst hrr
        exact ⟨(h'.2 r0 hr0).2, rfl⟩
      · simp only [hg, if_false] at hrr
        subst hrr
        exact ⟨le_refl _, rfl⟩

theorem runCalls_append (q : Time → Time) (pre post : List Call) (w : World Table) :
    runCalls q (pre ++ post) w = runCalls q post (runCalls q pre w) := by
  simp [runCalls, List.foldl_append]

theorem runCalls_inv (q : Time → Time) (hq : Monotone q) (calls : List Call) (w : World Table)
    (T : Time) (hsorted : List.Chain (fun a b => a ≤ b) T (calls.map Call.now))
    (h : TableInv q T w.db) :
    TableInv q (calls.foldl (fun _ c => c.now) T) (runCalls q calls w).db := by
  induction calls generalizing w T with
  | nil => simpa [runCalls] using h
  | cons c cs ih =>
    simp only [List.map_cons, List.chain_cons] at hsorted
    have hstep := (Call_run_step q hq c w T hsorted.1 h).1
    exact ih (c.run q w) c.now hsorted.2 hstep

theorem chain_foldl_now (calls : List Call) (T : Time)
    (hsorted : List.Chain (fun a b => a ≤ b) T (calls.map Call.now)) (post : List Call)
    (c : Call) (hc : List.Chain (fun a b => a ≤ b) T ((calls ++ c :: post).map Call.now)) :
    calls.foldl (fun _ c => c.now) T ≤ c.now := by
  induction calls generalizing T with
  | nil =>
    simp only [List.nil_append, List.map_cons, List.chain_cons] at hc
    exact hc.1
  | cons d ds ih =>
    simp only [List.map_cons, List.chain_cons, List.cons_append] at hsorted hc
    exact ih d.now hsorted.2 hc.2

theorem chain_take (T : Time) (pre post : List Call)
    (h : List.Chain (fun a b => a ≤ b) T ((pre ++ post).map Call.now)) :
    List.Chain (fun a b => a ≤ b) T (pre.map Call.now) := by
  induction pre generalizing T with
  | nil => exact List.Chain.nil
  | cons d ds ih =>
    simp only [List.map_cons, List.chain_cons, List.cons_append] at h ⊢
    exact ⟨h.1, ih d.now h.2⟩

/-- C8: on the table, with a store precision `q` that keeps the order of timestamps
and a clock that never goes back, a successful UpdateGateway keeps gateway_id and
created_at of the row, puts the caller's value in every other column and the current
time in updated_at; and along any sequence of CreateGateway and UpdateGateway calls
every row has updated_at ≥ created_at, created_at never changes and updated_at never
decreases. -/
theorem update_keeps_identity_and_order (q : Time → Time) (hq : Monotone q)
    (calls : List Call) (w : World Table) (T : Time)
    (hclock : List.Chain (fun a b => a ≤ b) T (calls.map Call.now))
    (hinit : TableInv q T w.db) :
    (∀ (now : Time) (gw : Gateway) (w' : World Table),
      (UpdateGateway (tableExecer q) now gw w').1.2 = none →
        (∃ r ∈ w'.db, r.gateway_id = gw.GatewayID) ∧
        (UpdateGateway (tableExecer q) now gw w').2.db = w'.db.map (fun r =>
          if r.gateway_id = gw.GatewayID then
            { gateway_id := r.gateway_id
              created_at := r.created_at
              updated_at := q now
              first_seen_at := gw.FirstSeenAt.map q
              last_seen_at := gw.LastSeenAt.map q
              location := asColumn gw.Location.Value.1
              altitude := gw.Altitude
              gateway_profile_id := gw.GatewayProfileID
              fine_timestamp_aes_key := gw.FineTimestampAESKey
              fpga_id := gw.FPGAID }
          else r)) ∧
    (∀ pre post, calls = pre ++ post →
      ∀ r ∈ (runCalls q pre w).db, r.created_at ≤ r.updated_at) ∧
    (∀ pre c post, calls = pre ++ c :: post →
      ∀ r ∈ (runCalls q pre w).db, ∀ r' ∈ (runCalls q (pre ++ [c]) w).db,
        r'.gateway_id = r.gateway_id →
          r.updated_at ≤ r'.updated_at ∧ r'.created_at = r.created_at) := by
  refine ⟨?_, ?_, ?_⟩
  · intro now gw w' hok
    exact ⟨UpdateGateway_table_ok q now gw w' hok, UpdateGateway_table_db q now gw w'⟩
  · intro pre post hcalls r hr
    subst hcalls
    exact ((runCalls_inv q hq pre w T (chain_take T pre post hclock) hinit).2 r hr).1
  · intro pre c post hcalls r hr r' hr' hid
    subst hcalls
    have hpre := chain_take T pre (c :: post) hclock
    have hinv := runCalls_inv q hq pre w T hpre hinit
    have hle := chain_foldl_now pre T hpre post c hclock
    rw [runCalls_append] at hr'
    exact (Call_run_step q hq c (runCalls q pre w) _ hle hinv).2 r hr r' hr' hid

theorem microseconds_monotone : Monotone microseconds := by
  have key : ∀ x y : Int, x ≤ y → x - x % 1000 ≤ y - y % 1000 := by
    intro x y h
    omega
  intro a b hab
  exact key a b hab

theorem update_keeps_identity_and_order_witness :
    (UpdateGateway (tableExecer microseconds) 7300 testGateway
        (runCalls microseconds [Call.create 5200 testGateway] ⟨[], [], []⟩)).2.db
      = [{ gateway_id := testID, created_at := 5000, updated_at := 7000,
           first_seen_at := none, last_seen_at := none,
           location := DriverValue.bytes "(1.23456789,4.56789012)",
           altitude := Float64.zero false, gateway_profile_id := none,
           fine_timestamp_aes_key := none, fpga_id := none }] ∧
    (∀ r ∈ (runCalls microseconds
        [Call.create 5200 testGateway, Call.update 7300 testGateway] ⟨[], [], []⟩).db,
      r.created_at ≤ r.updated_at) :=
  have h := update_keeps_identity_and_order microseconds microseconds_monotone
    [Call.create 5200 testGateway, Call.update 7300 testGateway] ⟨[], [], []⟩ 0
    (List.Chain.cons (by decide) (List.Chain.cons (by decide) List.Chain.nil))
    ⟨List.nodup_nil, fun _ hr => absurd hr (List.not_mem_nil _)⟩
  ⟨((h.1 7300 testGateway _ (by decide)).2).trans (by decide), h.2.1 _ [] (by simp)⟩

/-! ## The point codec -/

theorem SkipSpace_ok (input out : List Char) (h : SkipSpace input = .ok out) :
    ∃ ws, input = ws ++ out ∧ blank ws ∧ ∀ c ∈ out.head?, isSpace c = false := by
  induction input with
  | nil =>
    simp only [SkipSpace, Except.ok.injEq] at h
    subst h
    exact ⟨[], rfl, by simp [blank], by simp⟩
  | cons r rest ih =>
    unfold SkipSpace at h
    split at h
    · rename_i hr
      -- a carriage return before a newline: the newline is reached next and fails
      exfalso
      cases rest with
      | nil => simp at hr
      | cons c rest' =>
        have hc : c = '\n' := by simpa using hr.2
        subst hc
        simp [SkipSpace] at h
    · split at h
      · cases h
      · rename_i hnl
        split at h
        · rename_i hsp
          obtain ⟨ws, hws, hbl, hout⟩ := ih h
          refine ⟨r :: ws, by simp [hws], ?_, hout⟩
          intro c hc
          rcases List.mem_cons.1 hc with hc | hc
          · subst hc
            exact ⟨hsp, hnl⟩
          · exact hbl c hc
        · rename_i hsp
          simp only [Except.ok.injEq] at h
          subst h
          refine ⟨[], rfl, by simp [blank], ?_⟩
          intro c hc
          simp only [List.head?_cons, Option.mem_def, Option.some.injEq] at hc
          subst hc
          simpa using hsp

/-- Blank space before a rune that is no space is skipped, and nothing else. -/
theorem SkipSpace_blank (ws : List Char) (c : Char) (r : List Char) (hws : blank ws)
    (hc : isSpace c = false) : SkipSpace (ws ++ c :: r) = .ok (c :: r) := by
  induction ws with
  | nil =>
    have h1 : c ≠ '\n' := by
      intro h
      subst h
      revert hc
      decide
    have h2 : c ≠ '\r' := by
      intro h
      subst h
      revert hc
      decide
    simp [SkipSpace, h1, h2, hc]
  | cons w ws ih =>
    have hw := hws w (List.mem_cons_self _ _)
    have ih' := ih (fun x hx => hws x (List.mem_cons_of_mem _ hx))
    rw [List.cons_append, SkipSpace]
    split
    · exact ih'
    · rw [if_neg hw.2, if_pos hw.1]
      exact ih'

theorem tokenStep_refl (s : ss) : tokenStep s s :=
  ⟨rfl, [], by simp, by simp⟩

theorem tokenStep_trans {s1 s2 s3 : ss} (h12 : tokenStep s1 s2) (h23 : tokenStep s2 s3) :
    tokenStep s1 s3 := by
  obtain ⟨e1, a1, hb1, hc1⟩ := h12
  obtain ⟨e2, a2, hb2, hc2⟩ := h23
  refine ⟨e2.trans e1, a1 ++ a2, by rw [hb2, hb1, List.append_assoc], ?_⟩
  intro c hc
  rcases List.mem_append.1 hc with h | h
  · exact hc1 c h
  · exact hc2 c h

theorem accept_step (s : ss) (ok : List Char) (hok : ∀ c ∈ ok, c ∈ floatRunes) :
    tokenStep s (s.accept ok).2 := by
  unfold ss.accept
  split
  · exact tokenStep_refl s
  · rename_i r rest hin
    split
    · rename_i hr
      exact ⟨by simp [hin], [r], rfl, by simpa using hok r hr⟩
    · exact tokenStep_refl s

theorem accept3_step (s : ss) (a b c : List Char) (ha : ∀ x ∈ a, x ∈ floatRunes)
    (hb : ∀ x ∈ b, x ∈ floatRunes) (hc : ∀ x ∈ c, x ∈ floatRunes) :
    tokenStep s (s.accept3 a b c).2 := by
  unfold ss.accept3
  have h1 := accept_step s a ha
  simp only
  split
  · have h2 := accept_step (s.accept a).2 b hb
    split
    · exact tokenStep_trans h1 (tokenStep_trans h2 (accept_step _ c hc))
    · exact tokenStep_trans h1 h2
  · exact h1

theorem acceptRun_step (ok : List Char) (hok : ∀ c ∈ ok, c ∈ floatRunes) (input buf : List Char) :
    tokenStep ⟨input, buf⟩ (acceptRun ok input buf) := by
  induction input generalizing buf with
  | nil => exact tokenStep_refl _
  | cons r rest ih =>
    unfold acceptRun
    split
    · rename_i hr
      refine tokenStep_trans ?_ (ih (buf ++ [r]))
      exact ⟨by simp, [r], rfl, by simpa using hok r hr⟩
    · exact tokenStep_refl _

theorem tokenFraction_step (s : ss) : tokenStep s (tokenFraction s) := by
  unfold tokenFraction
  have hp := accept_step s ".".toList (by decide)
  simp only
  split
  · exact tokenStep_trans hp (acceptRun_step decimalDigits (by decide) _ _)
  · exact hp

theorem tokenExponent_step (s : ss) : tokenStep s (tokenExponent s) := by
  unfold tokenExponent
  have he := accept_step s "eEp".toList (by decide)
  simp only
  split
  · exact tokenStep_trans he (tokenStep_trans (accept_step _ "+-".toList (by decide))
      (acceptRun_step decimalDigits (by decide) _ _))
  · exact he

theorem floatToken_step (input : List Char) : tokenStep ⟨input, []⟩ (floatToken input) := by
  have hn := accept3_step ⟨input, []⟩ "nN".toList "aA".toList "nN".toList
    (by decide) (by decide) (by decide)
  unfold floatToken
  simp only
  split
  · exact hn
  · have hs := accept_step (ss.accept3 ⟨input, []⟩ "nN".toList "aA".toList "nN".toList).2
      "+-".toList (by decide)
    have hi := accept3_step
      ((ss.accept3 ⟨input, []⟩ "nN".toList "aA".toList "nN".toList).2.accept "+-".toList).2
      "iI".toList "nN".toList "fF".toList (by decide) (by decide) (by decide)
    have h3 := tokenStep_trans hn (tokenStep_trans hs hi)
    split
    · exact h3
    · exact tokenStep_trans h3 (tokenStep_trans (acceptRun_step decimalDigits (by decide) _ _)
        (tokenStep_trans (tokenFraction_step _) (tokenExponent_step _)))

theorem floatToken_spec (input : List Char) :
    (floatToken input).buf ++ (floatToken input).input = input ∧
    ∀ c ∈ (floatToken input).buf, c ∈ floatRunes := by
  obtain ⟨e, add, hb, hc⟩ := floatToken_step input
  refine ⟨by simpa using e, ?_⟩
  intro c hcm
  rw [hb] at hcm
  exact hc c (by simpa using hcm)
/-! ### The token does not depend on what follows it -/

theorem accept_extend (s : ss) (ok : List Char) (c : Char) (rest : List Char) (hc : c ∉ ok) :
    (s.extend (c :: rest)).accept ok = ((s.accept ok).1, (s.accept ok).2.extend (c :: rest)) := by
  obtain ⟨input, buf⟩ := s
  cases input with
  | nil => simp [ss.extend, ss.accept, hc]
  | cons r i =>
    by_cases hr : r ∈ ok
    · simp [ss.extend, ss.accept, hr]
    · simp [ss.extend, ss.accept, hr]

theorem accept3_extend (s : ss) (a b d : List Char) (c : Char) (rest : List Char)
    (ha : c ∉ a) (hb : c ∉ b) (hd : c ∉ d) :
    (s.extend (c :: rest)).accept3 a b d
      = ((s.accept3 a b d).1, (s.accept3 a b d).2.extend (c :: rest)) := by
  unfold ss.accept3
  simp only [accept_extend s a c rest ha]
  split
  · simp only [accept_extend _ b c rest hb]
    split
    · exact accept_extend _ d c rest hd
    · rfl
  · rfl

theorem acceptRun_extend (ok : List Char) (c : Char) (rest : List Char) (hc : c ∉ ok)
    (input buf : List Char) :
    acceptRun ok (input ++ c :: rest) buf = (acceptRun ok input buf).extend (c :: rest) := by
  induction input generalizing buf with
  | nil => simp [acceptRun, hc, ss.extend]
  | cons r i ih =>
    by_cases hr : r ∈ ok
    · simp only [List.cons_append, acceptRun, hr, if_true]
      exact ih _
    · simp [acceptRun, hr, ss.extend]

theorem tokenFraction_extend (s : ss) (c : Char) (rest : List Char) (hc : c ∉ floatRunes) :
    tokenFraction (s.extend (c :: rest)) = (tokenFraction s).extend (c :: rest) := by
  have h1 : c ∉ ".".toList :=
    fun h => hc ((by decide : ∀ x ∈ ".".toList, x ∈ floatRunes) c h)
  have h2 : c ∉ decimalDigits :=
    fun h => hc ((by decide : ∀ x ∈ decimalDigits, x ∈ floatRunes) c h)
  unfold tokenFraction
  simp only [accept_extend s _ c rest h1]
  split
  · exact acceptRun_extend _ c rest h2 _ _
  · rfl

theorem tokenExponent_extend (s : ss) (c : Char) (rest : List Char) (hc : c ∉ floatRunes) :
    tokenExponent (s.extend (c :: rest)) = (tokenExponent s).extend (c :: rest) := by
  have h1 : c ∉ "eEp".toList :=
    fun h => hc ((by decide : ∀ x ∈ "eEp".toList, x ∈ floatRunes) c h)
  have h2 : c ∉ "+-".toList :=
    fun h => hc ((by decide : ∀ x ∈ "+-".toList, x ∈ floatRunes) c h)
  have h3 : c ∉ decimalDigits :=
    fun h => hc ((by decide : ∀ x ∈ decimalDigits, x ∈ floatRunes) c h)
  unfold tokenExponent
  simp only [accept_extend s _ c rest h1]
  split
  · simp only [accept_extend _ _ c rest h2]
    exact acceptRun_extend _ c rest h3 _ _
  · rfl

/-- A rune that cannot be part of a float ends the token: the token read before it is
the token read from the text that stops there. -/
theorem floatToken_extend (t : List Char) (c : Char) (rest : List Char) (hc : c ∉ floatRunes) :
    floatToken (t ++ c :: rest) = (floatToken t).extend (c :: rest) := by
  have hnN : c ∉ "nN".toList :=
    fun h => hc ((by decide : ∀ x ∈ "nN".toList, x ∈ floatRunes) c h)
  have haA : c ∉ "aA".toList :=
    fun h => hc ((by decide : ∀ x ∈ "aA".toList, x ∈ floatRunes) c h)
  have hsg : c ∉ "+-".toList :=
    fun h => hc ((by decide : ∀ x ∈ "+-".toList, x ∈ floatRunes) c h)
  have hiI : c ∉ "iI".toList :=
    fun h => hc ((by decide : ∀ x ∈ "iI".toList, x ∈ floatRunes) c h)
  have hfF : c ∉ "fF".toList :=
    fun h => hc ((by decide : ∀ x ∈ "fF".toList, x ∈ floatRunes) c h)
  have hdg : c ∉ decimalDigits :=
    fun h => hc ((by decide : ∀ x ∈ decimalDigits, x ∈ floatRunes) c h)
  have h0 : (⟨t ++ c :: rest, []⟩ : ss) = ss.extend ⟨t, []⟩ (c :: rest) := rfl
  unfold floatToken
  simp only [h0, accept3_extend _ _ _ _ c rest hnN haA hnN]
  split
  · rfl
  · simp only [accept_extend _ _ c rest hsg, accept3_extend _ _ _ _ c rest hiI hnN hfF]
    split
    · rfl
    · have h1 := acceptRun_extend decimalDigits c rest hdg
        ((ss.accept3 ((ss.accept3 ⟨t, []⟩ "nN".toList "aA".toList "nN".toList).2.accept
          "+-".toList).2 "iI".toList "nN".toList "fF".toList).2.input)
        ((ss.accept3 ((ss.accept3 ⟨t, []⟩ "nN".toList "aA".toList "nN".toList).2.accept
          "+-".toList).2 "iI".toList "nN".toList "fF".toList).2.buf)
      simp only [ss.extend] at h1 ⊢
      rw [h1]
      exact (tokenFraction_extend _ c rest hc).symm ▸
        (tokenExponent_extend _ c rest hc)

theorem floatRunes_not_space (c : Char) (h : c ∈ floatRunes) : isSpace c = false :=
  (by decide : ∀ x ∈ floatRunes, isSpace x = false) c h

theorem number_of_token (t : List Char) (c : Char) (rest : List Char) (hc : c ∉ floatRunes)
    (h : floatToken (t ++ c :: rest) = ⟨c :: rest, t⟩) : floatToken t = ⟨[], t⟩ := by
  rw [floatToken_extend t c rest hc] at h
  simp only [ss.extend, ss.mk.injEq] at h
  obtain ⟨h1, h2⟩ := h
  have h3 : (floatToken t).input = [] := List.append_left_eq_self.1 h1
  cases hft : floatToken t with
  | mk i b =>
    rw [hft] at h2 h3
    simp only at h2 h3
    rw [h2, h3]

theorem number_runes (t : List Char) (h : number t) :
    t ≠ [] ∧ ∀ c ∈ t, c ∈ floatRunes := by
  constructor
  · intro hnil
    subst hnil
    revert h
    unfold number
    decide
  · have hs := (floatToken_spec t).2
    rw [h.1] at hs
    exact hs

/-! ### What Scan accepts -/

theorem scanOne_ok (verb : Char) (input rest : List Char) (v : Float64)
    (h : scanOne verb input = .ok (v, rest)) :
    ∃ ws t, input = ws ++ t ++ rest ∧ blank ws ∧ t ≠ [] ∧
      floatToken (t ++ rest) = ⟨rest, t⟩ ∧ convertFloat t = (v, none) := by
  unfold scanOne at h
  split at h
  · split at h
    · cases h
    · cases h
    · rename_i r rest' hsk
      simp only at h
      split at h
      · cases h
      · rename_i hconv
        simp only [Except.ok.injEq, Prod.mk.injEq] at h
        obtain ⟨ws, hws, hsp, _⟩ := SkipSpace_ok _ _ hsk
        have hspec := floatToken_spec (r :: rest')
        refine ⟨ws, (floatToken (r :: rest')).buf, ?_, hsp, ?_, ?_, ?_⟩
        · rw [hws, List.append_assoc, ← h.2, hspec.1]
        · intro hnil
          rw [hnil] at hconv
          revert hconv
          decide
        · rw [← h.2, hspec.1]
        · rw [← h.1]
          exact Prod.ext rfl hconv
  · cases h

theorem doScanf_lit_ok (c : Char) (items : List FormatItem) (input : List Char)
    (a : List Float64) (n : Nat) (h : (doScanf (FormatItem.lit c :: items) input a n).2 = none) :
    ∃ rest, input = c :: rest ∧
      doScanf (FormatItem.lit c :: items) input a n = doScanf items rest a n := by
  cases input with
  | nil => simp [doScanf] at h
  | cons r rest =>
    by_cases hr : r = c
    · subst hr
      exact ⟨rest, rfl, by simp [doScanf]⟩
    · simp [doScanf, hr] at h

theorem doScanf_verb_ok (c : Char) (items : List FormatItem) (input : List Char)
    (a : List Float64) (n : Nat) (h : (doScanf (FormatItem.verb c :: items) input a n).2 = none) :
    ∃ ws t rest v, input = ws ++ t ++ rest ∧ blank ws ∧ t ≠ [] ∧
      floatToken (t ++ rest) = ⟨rest, t⟩ ∧ convertFloat t = (v, none) ∧
      doScanf (FormatItem.verb c :: items) input a n = doScanf items rest (a.set n v) (n + 1) := by
  rw [doScanf] at h ⊢
  split at h
  · cases h
  · rename_i input1 hsk
    split at h
    · cases h
    · split at h
      · cases h
      · rename_i hlen _ v input2 hone
        obtain ⟨ws1, hws1, hsp1, _⟩ := SkipSpace_ok _ _ hsk
        obtain ⟨ws2, t, hin, hsp2, hne, htok, hconv⟩ := scanOne_ok _ _ _ _ hone
        refine ⟨ws1 ++ ws2, t, input2, v, ?_, ?_, hne, htok, hconv, ?_⟩
        · rw [hws1, hin]
          simp
        · intro x hx
          rcases List.mem_append.1 hx with hx | hx
          · exact hsp1 x hx
          · exact hsp2 x hx
        · simp only [hsk, hlen, hone, if_false]

/-- Scanning a `%f` verb at blank space and a number, when a rune that cannot be part
of a float follows. -/
theorem doScanf_verb_number (items : List FormatItem) (ws t : List Char) (c : Char)
    (rest : List Char) (a : List Float64) (n : Nat) (hws : blank ws) (ht : number t)
    (hc : c ∉ floatRunes) (hn : n < a.length) :
    doScanf (FormatItem.verb 'f' :: items) (ws ++ t ++ c :: rest) a n
      = doScanf items (c :: rest) (a.set n (convertFloat t).1) (n + 1) := by
  obtain ⟨hne, hrunes⟩ := number_runes t ht
  obtain ⟨r, t', rfl⟩ : ∃ r t', t = r :: t' := by
    cases t with
    | nil => exact absurd rfl hne
    | cons r t' => exact ⟨r, t', rfl⟩
  have hr : isSpace r = false := floatRunes_not_space r (hrunes r (List.mem_cons_self _ _))
  have hsk1 : SkipSpace (ws ++ (r :: t') ++ c :: rest) = .ok (r :: (t' ++ c :: rest)) := by
    have := SkipSpace_blank ws r (t' ++ c :: rest) hws hr
    simpa using this
  have hsk2 : SkipSpace (r :: (t' ++ c :: rest)) = .ok (r :: (t' ++ c :: rest)) :=
    SkipSpace_blank [] r (t' ++ c :: rest) (by simp [blank]) hr
  have htok : floatToken (r :: (t' ++ c :: rest)) = ⟨c :: rest, r :: t'⟩ := by
    have := floatToken_extend (r :: t') c rest hc
    rw [ht.1] at this
    simpa [ss.extend] using this
  have hconv : (convertFloat (r :: t')).2 = none := ht.2
  have hone : scanOne 'f' (r :: (t' ++ c :: rest))
      = .ok ((convertFloat (r :: t')).1, c :: rest) := by
    unfold scanOne
    rw [if_pos (by decide), hsk2]
    simp only [htok, hconv]
  rw [doScanf, hsk1]
  simp only
  rw [if_neg (by omega), hone]

theorem parseFormat_point :
    parseFormat "(%f,%f)".data =
      [FormatItem.lit '(', FormatItem.verb 'f', FormatItem.lit ',', FormatItem.verb 'f',
        FormatItem.lit ')'] := by
  decide

theorem Scan_ok_scannable (l : GPSPoint) (b : String) (h : (l.Scan (DriverValue.bytes b)).2 = none) :
    scannable b.data := by
  change (doScanf (parseFormat "(%f,%f)".data) b.data [l.Latitude, l.Longitude] 0).2 = none at h
  rw [parseFormat_point] at h
  obtain ⟨r1, h1, e1⟩ := doScanf_lit_ok _ _ _ _ _ h
  rw [e1] at h
  obtain ⟨ws1, t1, r2, v1, h2, hs1, hn1, hk1, hc1, e2⟩ := doScanf_verb_ok _ _ _ _ _ h
  rw [e2] at h
  obtain ⟨r3, h3, e3⟩ := doScanf_lit_ok _ _ _ _ _ h
  rw [e3] at h
  obtain ⟨ws2, t2, r4, v2, h4, hs2, hn2, hk2, hc2, e4⟩ := doScanf_verb_ok _ _ _ _ _ h
  rw [e4] at h
  obtain ⟨r5, h5, _⟩ := doScanf_lit_ok _ _ _ _ _ h
  rw [h3] at hk1
  rw [h5] at hk2
  refine ⟨ws1, t1, ws2, t2, r5, ?_, hs1, hs2, ⟨?_, ?_⟩, ⟨?_, ?_⟩⟩
  · rw [h1, h2, h3, h4, h5]
  · exact number_of_token t1 ',' r3 (by decide) hk1
  · rw [hc1]
  · exact number_of_token t2 ')' r5 (by decide) hk2
  · rw [hc2]

theorem Scan_of_scannable (l : GPSPoint) (b : String) (h : scannable b.data) :
    (l.Scan (DriverValue.bytes b)).2 = none := by
  obtain ⟨ws1, t1, ws2, t2, rest, hs, hb1, hb2, hn1, hn2⟩ := h
  change (doScanf (parseFormat "(%f,%f)".data) b.data [l.Latitude, l.Longitude] 0).2 = none
  rw [parseFormat_point, hs]
  rw [doScanf, if_pos rfl]
  rw [doScanf_verb_number _ ws1 t1 ',' _ _ 0 hb1 hn1 (by decide) (by simp)]
  rw [doScanf, if_pos rfl]
  rw [doScanf_verb_number _ ws2 t2 ')' _ _ 1 hb2 hn2 (by decide) (by simp)]
  rw [doScanf, if_pos rfl]
  simp [doScanf]

/-- C4, as stated, fails: text after the closing parenthesis, and blank space before a
number, are accepted without error. -/
theorem Scan_accepts_trailing_text :
    (GPSPoint.Scan ⟨Float64.zero false, Float64.zero false⟩ (DriverValue.bytes "(1,2)xyz"))
      = (⟨Float64.ofFields false 1023 0, Float64.ofFields false 1024 0⟩, none) ∧
    (GPSPoint.Scan ⟨Float64.zero false, Float64.zero false⟩ (DriverValue.bytes "( 1,\t2)")).2
      = none := by
  decide

theorem doScanf_error_of_length (items : List FormatItem) (input : List Char)
    (a a' : List Float64) (n : Nat) (hlen : a.length = a'.length) :
    (doScanf items input a n).2 = (doScanf items input a' n).2 := by
  induction items generalizing input a a' n with
  | nil => simp [doScanf, hlen]
  | cons item items ih =>
    cases item with
    | lit c =>
      cases input with
      | nil => simp [doScanf]
      | cons r rest =>
        by_cases hr : r = c
        · simp only [doScanf, hr, if_true]
          exact ih rest a a' n hlen
        · simp [doScanf, hr]
    | verb c =>
      rw [doScanf, doScanf]
      cases SkipSpace input with
      | error e => rfl
      | ok input1 =>
        simp only
        rw [hlen]
        split
        · rfl
        · cases scanOne c input1 with
          | error e => rfl
          | ok r =>
            obtain ⟨v, input2⟩ := r
            simp only
            exact ih input2 _ _ _ (by simp [hlen])

theorem Scan_error_of_receiver (l l' : GPSPoint) (src : DriverValue) :
    (l.Scan src).2 = (l'.Scan src).2 := by
  cases src with
  | bytes b =>
    simp only [GPSPoint.Scan, Sscanf]
    exact doScanf_error_of_length _ _ _ _ _ rfl
  | _ => rfl

/-- C4 (as amended): Scan returns a non-nil error for every source that is not a byte
slice. For a byte slice it returns nil exactly when the text begins with `(`, a number,
`,`, a number and `)`, where blank space without a newline may stand before each number
and a number is a text the verb `%f` reads to its last rune and converts without error;
every other byte slice gets a non-nil error. What follows the closing parenthesis is
not examined. A missing parenthesis, a missing comma, a field that is no number, a
newline before a number and a number with two exponents are rejected. -/
theorem Scan_rejects_malformed (l : GPSPoint) (src : DriverValue) :
    ((∀ b, src ≠ DriverValue.bytes b) → (l.Scan src).2 ≠ none) ∧
    (∀ b, src = DriverValue.bytes b → ((l.Scan src).2 = none ↔ scannable b.data)) ∧
    (l.Scan (DriverValue.bytes "(1,2")).2 ≠ none ∧
    (l.Scan (DriverValue.bytes "1,2)")).2 ≠ none ∧
    (l.Scan (DriverValue.bytes "(1 2)")).2 ≠ none ∧
    (l.Scan (DriverValue.bytes "(a,2)")).2 ≠ none ∧
    (l.Scan (DriverValue.bytes "(1,)")).2 ≠ none ∧
    (l.Scan (DriverValue.bytes "(\n1,2)")).2 ≠ none ∧
    (l.Scan (DriverValue.bytes "(1,\r\n2)")).2 ≠ none ∧
    (l.Scan (DriverValue.bytes "(1e3p2,2)")).2 ≠ none ∧
    (l.Scan (DriverValue.string "(1,2)")).2 ≠ none := by
  refine ⟨?_, ?_, ?_, ?_, ?_, ?_, ?_, ?_, ?_, ?_, ?_⟩
  · intro hnb
    cases src with
    | bytes b => exact absurd rfl (hnb b)
    | _ => simp [GPSPoint.Scan]
  · intro b hb
    subst hb
    exact ⟨Scan_ok_scannable l b, Scan_of_scannable l b⟩
  all_goals
    rw [Scan_error_of_receiver l ⟨Float64.zero false, Float64.zero false⟩]
    decide

/-! ## ParseFloat after FormatFloat -/

theorem bitLenAux_spec (fuel n : Nat) (hf : n ≤ fuel) (hn : 0 < n) :
    2 ^ (bitLenAux fuel n - 1) ≤ n ∧ n < 2 ^ bitLenAux fuel n ∧ 0 < bitLenAux fuel n := by
  induction fuel generalizing n with
  | zero => omega
  | succ f ih =>
    unfold bitLenAux
    rw [if_neg (by omega)]
    by_cases h1 : n / 2 = 0
    · have hn1 : n = 1 := by omega
      subst hn1
      cases f <;> simp [bitLenAux]
    · have hpos : 0 < n / 2 := by omega
      have hle : n / 2 ≤ f := by omega
      obtain ⟨ihl, ihu, ihp⟩ := ih (n / 2) hle hpos
      refine ⟨?_, ?_, by omega⟩
      · have : bitLenAux f (n / 2) + 1 - 1 = (bitLenAux f (n / 2) - 1) + 1 := by omega
        rw [this, pow_succ]
        omega
      · rw [pow_succ]
        omega

theorem bitLen_spec (n : Nat) (hn : 0 < n) :
    2 ^ (bitLen n - 1) ≤ n ∧ n < 2 ^ bitLen n ∧ 0 < bitLen n :=
  bitLenAux_spec n n (le_refl n) hn

theorem scale2_pos (a b : Nat) (e : Int) (ha : 0 < a) (hb : 0 < b) :
    0 < (scale2 a b e).1 ∧ 0 < (scale2 a b e).2 := by
  unfold scale2
  split
  · exact ⟨ha, Nat.mul_pos hb (by positivity)⟩
  · exact ⟨Nat.mul_pos ha (by positivity), hb⟩

theorem scale2_spec (a b : Nat) (e : Int) (hb : 0 < b) :
    ((scale2 a b e).1 : ℚ) / ((scale2 a b e).2 : ℚ) = (a : ℚ) / (b : ℚ) / (2 : ℚ) ^ e := by
  have hb' : (b : ℚ) ≠ 0 := by exact_mod_cast hb.ne'
  unfold scale2
  split
  · rename_i he
    obtain ⟨k, rfl⟩ := Int.eq_ofNat_of_zero_le he
    simp only [Int.toNat_ofNat, zpow_natCast]
    push_cast
    field_simp
  · rename_i he
    have he' : 0 ≤ -e := by omega
    obtain ⟨k, hk⟩ := Int.eq_ofNat_of_zero_le he'
    have hek : e = -(k : Int) := by omega
    subst hek
    simp only [neg_neg, Int.toNat_ofNat, zpow_neg, zpow_natCast]
    push_cast
    field_simp
theorem floorLog2_spec (a b : Nat) (ha : 0 < a) (hb : 0 < b) :
    (2 : ℚ) ^ (floorLog2 a b) ≤ (a : ℚ) / b ∧ (a : ℚ) / b < (2 : ℚ) ^ (floorLog2 a b + 1) := by
  obtain ⟨hal, hau, hap⟩ := bitLen_spec a ha
  obtain ⟨hbl, hbu, hbp⟩ := bitLen_spec b hb
  have hbq : (0 : ℚ) < b := by exact_mod_cast hb
  have haq : (0 : ℚ) < a := by exact_mod_cast ha
  have hal' : (2 : ℚ) ^ ((bitLen a : Int) - 1) ≤ a := by
    have : ((bitLen a : Int) - 1) = ((bitLen a - 1 : Nat) : Int) := by omega
    rw [this, zpow_natCast]
    exact_mod_cast hal
  have hau' : (a : ℚ) < (2 : ℚ) ^ (bitLen a : Int) := by
    rw [zpow_natCast]
    exact_mod_cast hau
  have hbl' : (2 : ℚ) ^ ((bitLen b : Int) - 1) ≤ b := by
    have : ((bitLen b : Int) - 1) = ((bitLen b - 1 : Nat) : Int) := by omega
    rw [this, zpow_natCast]
    exact_mod_cast hbl
  have hbu' : (b : ℚ) < (2 : ℚ) ^ (bitLen b : Int) := by
    rw [zpow_natCast]
    exact_mod_cast hbu
  have h2 : (0 : ℚ) < 2 := by norm_num
  have hupper : (a : ℚ) / b < (2 : ℚ) ^ ((bitLen a : Int) - bitLen b + 1) := by
    rw [div_lt_iff₀ hbq]
    calc (a : ℚ) < (2 : ℚ) ^ (bitLen a : Int) := hau'
      _ = (2 : ℚ) ^ ((bitLen a : Int) - bitLen b + 1) * (2 : ℚ) ^ ((bitLen b : Int) - 1) := by
          rw [← zpow_add₀ (by norm_num : (2 : ℚ) ≠ 0)]
          congr 1
          ring
      _ ≤ (2 : ℚ) ^ ((bitLen a : Int) - bitLen b + 1) * b :=
          mul_le_mul_of_nonneg_left hbl' (le_of_lt (zpow_pos h2 _))
  have hlower : (2 : ℚ) ^ ((bitLen a : Int) - bitLen b - 1) ≤ (a : ℚ) / b := by
    rw [le_div_iff₀ hbq]
    calc (2 : ℚ) ^ ((bitLen a : Int) - bitLen b - 1) * b
        ≤ (2 : ℚ) ^ ((bitLen a : Int) - bitLen b - 1) * (2 : ℚ) ^ (bitLen b : Int) :=
          mul_le_mul_of_nonneg_left (le_of_lt hbu') (le_of_lt (zpow_pos h2 _))
      _ = (2 : ℚ) ^ ((bitLen a : Int) - 1) := by
          rw [← zpow_add₀ (by norm_num : (2 : ℚ) ≠ 0)]
          congr 1
          ring
      _ ≤ a := hal'
  have hsc := scale2_spec a b ((bitLen a : Int) - bitLen b) hb
  obtain ⟨hp1, hp2⟩ := scale2_pos a b ((bitLen a : Int) - bitLen b) ha hb
  have hp2q : (0 : ℚ) < ((scale2 a b ((bitLen a : Int) - bitLen b)).2 : ℚ) := by exact_mod_cast hp2
  have hz : (0 : ℚ) < (2 : ℚ) ^ ((bitLen a : Int) - bitLen b) := zpow_pos h2 _
  unfold floorLog2
  simp only
  split
  · rename_i hle
    have h1 : (1 : ℚ) ≤ ((scale2 a b ((bitLen a : Int) - bitLen b)).1 : ℚ) /
        ((scale2 a b ((bitLen a : Int) - bitLen b)).2 : ℚ) := by
      rw [le_div_iff₀ hp2q, one_mul]
      exact_mod_cast hle
    rw [hsc, le_div_iff₀ hz, one_mul] at h1
    exact ⟨h1, hupper⟩
  · rename_i hle
    have h1 : ((scale2 a b ((bitLen a : Int) - bitLen b)).1 : ℚ) /
        ((scale2 a b ((bitLen a : Int) - bitLen b)).2 : ℚ) < 1 := by
      rw [div_lt_iff₀ hp2q, one_mul]
      exact_mod_cast (not_le.1 hle)
    rw [hsc, div_lt_iff₀ hz, one_mul] at h1
    refine ⟨hlower, ?_⟩
    have : (bitLen a : Int) - bitLen b - 1 + 1 = (bitLen a : Int) - bitLen b := by ring
    rw [this]
    exact h1

theorem floorLog2_unique (a b : Nat) (ha : 0 < a) (hb : 0 < b) (e : Int)
    (hl : (2 : ℚ) ^ e ≤ (a : ℚ) / b) (hu : (a : ℚ) / b < (2 : ℚ) ^ (e + 1)) :
    floorLog2 a b = e := by
  obtain ⟨sl, su⟩ := floorLog2_spec a b ha hb
  have h1 : (2 : ℚ) ^ e < (2 : ℚ) ^ (floorLog2 a b + 1) := lt_of_le_of_lt hl su
  have h2 : (2 : ℚ) ^ (floorLog2 a b) < (2 : ℚ) ^ (e + 1) := lt_of_le_of_lt sl hu
  have h1' := (zpow_lt_zpow_iff_right₀ (by norm_num : (1 : ℚ) < 2)).1 h1
  have h2' := (zpow_lt_zpow_iff_right₀ (by norm_num : (1 : ℚ) < 2)).1 h2
  omega

theorem roundToFloat64_eq (neg : Bool) (a b : Nat) (ha : a ≠ 0) (ue : Int) (n : Nat)
    (hue : max (floorLog2 a b - 52) (-1074) = ue)
    (hn : roundHalfEven (scale2 a b ue).1 (scale2 a b ue).2 = n)
    (hn53 : n ≠ 9007199254740992) :
    roundToFloat64 neg a b =
      if n < 4503599627370496 then (Float64.ofFields neg 0 n, false)
      else if 971 < ue then (Float64.Inf neg, true)
      else (Float64.ofFields neg (ue + 1075).toNat (n - 4503599627370496), false) := by
  unfold roundToFloat64
  simp only [ha, if_false, hue, hn, hn53]

theorem Float64.ext_fields (x : Float64) (s : Bool) (e f : Nat) (hs : x.sign = s)
    (he : x.expo.val = e) (hf : x.frac.val = f) : Float64.ofFields s e f = x := by
  obtain ⟨xs, xe, xf⟩ := x
  simp only at hs he hf
  subst hs he hf
  unfold Float64.ofFields
  congr 1
  · exact Fin.ext (by simp [Fin.ofNat, Nat.mod_eq_of_lt xe.isLt])
  · exact Fin.ext (by simp [Fin.ofNat, Nat.mod_eq_of_lt xf.isLt])


/-! ### Rounding to nearest even inside the bounds of a float -/

theorem roundHalfEven_near (num den c : Nat) (hden : 0 < den)
    (hlo : 2 * (c * den) ≤ 2 * num + den) (hup : 2 * num ≤ 2 * (c * den) + den)
    (hlo_tie : 2 * (c * den) = 2 * num + den → c % 2 = 0)
    (hup_tie : 2 * num = 2 * (c * den) + den → c % 2 = 0) :
    roundHalfEven num den = c := by
  have hdm := Nat.div_add_mod num den
  have hr := Nat.mod_lt num hden
  have ht : num / den = c ∨ num / den + 1 = c := by
    rcases Nat.lt_trichotomy (num / den) c with h | h | h
    · right
      by_contra hne
      have h2 : num / den + 2 ≤ c := by omega
      have h3 : (num / den + 2) * den ≤ c * den := Nat.mul_le_mul_right den h2
      have h4 : (num / den + 2) * den = den * (num / den) + 2 * den := by ring
      omega
    · left
      exact h
    · exfalso
      have h3 : (c + 1) * den ≤ (num / den) * den := Nat.mul_le_mul_right den h
      have h4 : (c + 1) * den = c * den + den := by ring
      have h5 : num / den * den = den * (num / den) := Nat.mul_comm _ _
      omega
  unfold roundHalfEven
  rcases ht with ht | ht
  · have hP : den * (num / den) = c * den := by rw [ht, Nat.mul_comm]
    simp only
    split
    · exact ht
    · split
      · omega
      · have h2 : 2 * (num % den) = den := by omega
        have hc := hup_tie (by omega)
        rw [ht]
        omega
  · have hP : c * den = den * (num / den) + den := by rw [← ht]; ring
    simp only
    split
    · omega
    · split
      · exact ht
      · have h2 : 2 * (num % den) = den := by omega
        have hc := hlo_tie (by omega)
        omega

theorem roundHalfEven_ratio (num den c : Nat) (hden : 0 < den)
    (hlo : (c : ℚ) - 1 / 2 ≤ (num : ℚ) / den) (hup : (num : ℚ) / den ≤ (c : ℚ) + 1 / 2)
    (hodd : c % 2 = 1 →
      (c : ℚ) - 1 / 2 < (num : ℚ) / den ∧ (num : ℚ) / den < (c : ℚ) + 1 / 2) :
    roundHalfEven num den = c := by
  have hd : (0 : ℚ) < den := by exact_mod_cast hden
  rw [le_div_iff₀ hd] at hlo
  rw [div_le_iff₀ hd] at hup
  have h1 : 2 * (c * den) ≤ 2 * num + den := by
    have : (2 : ℚ) * (c * den) ≤ 2 * num + den := by linarith
    exact_mod_cast this
  have h2 : 2 * num ≤ 2 * (c * den) + den := by
    have : (2 : ℚ) * num ≤ 2 * (c * den) + den := by linarith
    exact_mod_cast this
  apply roundHalfEven_near num den c hden h1 h2
  · intro heq
    by_contra hc
    obtain ⟨hs, _⟩ := hodd (by omega)
    rw [lt_div_iff₀ hd] at hs
    have : (2 : ℚ) * (c * den) = 2 * num + den := by exact_mod_cast heq
    linarith
  · intro heq
    by_contra hc
    obtain ⟨_, hs⟩ := hodd (by omega)
    rw [div_lt_iff₀ hd] at hs
    have : (2 : ℚ) * num = 2 * (c * den) + den := by exact_mod_cast heq
    linarith

theorem roundToFloat64_carry (neg : Bool) (a b : Nat) (ha : a ≠ 0) (ue : Int)
    (hue : max (floorLog2 a b - 52) (-1074) = ue)
    (hn : roundHalfEven (scale2 a b ue).1 (scale2 a b ue).2 = 9007199254740992) :
    roundToFloat64 neg a b =
      if 971 < ue + 1 then (Float64.Inf neg, true)
      else (Float64.ofFields neg (ue + 1 + 1075).toNat 0, false) := by
  unfold roundToFloat64
  simp only [ha, if_false, hue, hn, if_true]
  rfl

theorem Float64.mant_pos (x : Float64) (hnz : x.isZero = false) : 0 < x.mant := by
  have hfrac : x.frac.val < 4503599627370496 := x.frac.isLt
  unfold Float64.mant
  split
  · rename_i h0
    simp only [Float64.isZero, h0, beq_self_eq_true, Bool.true_and, beq_eq_false_iff_ne] at hnz
    omega
  · omega

/-- The float whose significand and exponent the rounding arrives at is the result. -/
theorem roundToFloat64_of_mant (x : Float64) (hfin : x.expo.val ≠ 2047) (a b : Nat)
    (ha : a ≠ 0) (hue : max (floorLog2 a b - 52) (-1074) = x.ulpExp)
    (hn : roundHalfEven (scale2 a b x.ulpExp).1 (scale2 a b x.ulpExp).2 = x.mant) :
    roundToFloat64 x.sign a b = (x, false) := by
  have hexp : x.expo.val < 2048 := x.expo.isLt
  have hfrac : x.frac.val < 4503599627370496 := x.frac.isLt
  by_cases h0 : x.expo.val = 0
  · have hMv : x.mant = x.frac.val := by simp [Float64.mant, h0]
    rw [roundToFloat64_eq x.sign a b ha x.ulpExp x.mant hue hn (by omega)]
    rw [if_pos (by omega)]
    rw [Float64.ext_fields x x.sign 0 x.mant rfl h0 hMv.symm]
  · have hMv : x.mant = 4503599627370496 + x.frac.val := by simp [Float64.mant, h0]
    have hEv : x.ulpExp = (x.expo.val : Int) - 1075 := by simp [Float64.ulpExp, h0]
    rw [roundToFloat64_eq x.sign a b ha x.ulpExp x.mant hue hn (by omega)]
    rw [if_neg (by omega), if_neg (by omega)]
    rw [Float64.ext_fields x x.sign (x.ulpExp + 1075).toNat (x.mant - 4503599627370496) rfl
      (by omega) (by omega)]

theorem floorLog2_small (a b : Nat) (ha : 0 < a) (hb : 0 < b)
    (h : (a : ℚ) / b < (2 : ℚ) ^ (-1022 : Int)) :
    max (floorLog2 a b - 52) (-1074) = -1074 := by
  obtain ⟨sl, _⟩ := floorLog2_spec a b ha hb
  have h1 : (2 : ℚ) ^ floorLog2 a b < (2 : ℚ) ^ (-1022 : Int) := lt_of_le_of_lt sl h
  have h2 := (zpow_lt_zpow_iff_right₀ (by norm_num : (1 : ℚ) < 2)).1 h1
  omega

/-- A quotient within half a unit of the significand of `x`, at the exponent of `x`,
rounds to `x`. -/
theorem roundToFloat64_center (x : Float64) (hfin : x.expo.val ≠ 2047) (a b : Nat)
    (ha : 0 < a) (hb : 0 < b)
    (hue : max (floorLog2 a b - 52) (-1074) = x.ulpExp)
    (hlo : ((x.mant : ℚ) - 1 / 2) * (2 : ℚ) ^ x.ulpExp ≤ (a : ℚ) / b)
    (hup : (a : ℚ) / b ≤ ((x.mant : ℚ) + 1 / 2) * (2 : ℚ) ^ x.ulpExp)
    (hodd : x.mant % 2 = 1 →
      ((x.mant : ℚ) - 1 / 2) * (2 : ℚ) ^ x.ulpExp < (a : ℚ) / b ∧
        (a : ℚ) / b < ((x.mant : ℚ) + 1 / 2) * (2 : ℚ) ^ x.ulpExp) :
    roundToFloat64 x.sign a b = (x, false) := by
  have hzE : (0 : ℚ) < (2 : ℚ) ^ x.ulpExp := zpow_pos (by norm_num) _
  apply roundToFloat64_of_mant x hfin a b ha.ne' hue
  apply roundHalfEven_ratio _ _ _ (scale2_pos a b x.ulpExp ha hb).2
  · rw [scale2_spec a b x.ulpExp hb, le_div_iff₀ hzE]
    exact hlo
  · rw [scale2_spec a b x.ulpExp hb, div_le_iff₀ hzE]
    exact hup
  · intro ho
    obtain ⟨h1, h2⟩ := hodd ho
    rw [scale2_spec a b x.ulpExp hb, lt_div_iff₀ hzE, div_lt_iff₀ hzE]
    exact ⟨h1, h2⟩

/-- Round-to-nearest-even takes every rational between the bounds of a finite non-zero
`x` to `x`. -/
theorem roundToFloat64_interval (x : Float64) (hfin : x.expo.val ≠ 2047)
    (hnz : x.isZero = false) (a b : Nat) (hb : 0 < b) (hin : x.within ((a : ℚ) / b)) :
    roundToFloat64 x.sign a b = (x, false) := by
  obtain ⟨hlo, hup, hodd⟩ := hin
  have hexp : x.expo.val < 2048 := x.expo.isLt
  have hfrac : x.frac.val < 4503599627370496 := x.frac.isLt
  have hM := x.mant_pos hnz
  have h2 : (0 : ℚ) < 2 := by norm_num
  have h20 : (2 : ℚ) ≠ 0 := by norm_num
  have hzE : (0 : ℚ) < (2 : ℚ) ^ x.ulpExp := zpow_pos h2 _
  have hz1 : (2 : ℚ) ^ (x.ulpExp - 1) = (2 : ℚ) ^ x.ulpExp / 2 := by
    rw [zpow_sub_one₀ h20]
    rfl
  have hz2 : (2 : ℚ) ^ (x.ulpExp - 1 - 1) = (2 : ℚ) ^ x.ulpExp / 4 := by
    rw [zpow_sub_one₀ h20, zpow_sub_one₀ h20]
    ring
  have hz52 : (2 : ℚ) ^ (52 + x.ulpExp) = 4503599627370496 * (2 : ℚ) ^ x.ulpExp := by
    rw [zpow_add₀ h20]
    norm_num
  have hz53 : (2 : ℚ) ^ (52 + x.ulpExp + 1) = 9007199254740992 * (2 : ℚ) ^ x.ulpExp := by
    rw [zpow_add_one₀ h20, zpow_add₀ h20]
    norm_num
    ring
  have hz51 : (2 : ℚ) ^ (51 + x.ulpExp) = 2251799813685248 * (2 : ℚ) ^ x.ulpExp := by
    rw [zpow_add₀ h20]
    norm_num
  have hz51' : (2 : ℚ) ^ (51 + x.ulpExp + 1) = 4503599627370496 * (2 : ℚ) ^ x.ulpExp := by
    rw [zpow_add_one₀ h20, zpow_add₀ h20]
    norm_num
    ring
  have hMq : (1 : ℚ) ≤ x.mant := by exact_mod_cast hM
  have hMlt : x.mant < 9007199254740992 := by
    unfold Float64.mant
    split <;> omega
  have hMltq : (x.mant : ℚ) ≤ 9007199254740991 := by
    have : x.mant ≤ 9007199254740991 := by omega
    exact_mod_cast this
  have hU : (x.upper.1 : ℚ) * (2 : ℚ) ^ x.upper.2
      = ((x.mant : ℚ) + 1 / 2) * (2 : ℚ) ^ x.ulpExp := by
    simp only [Float64.upper]
    rw [hz1]
    push_cast
    ring
  rw [hU] at hup hodd
  have hL1 : 0 < x.lower.1 := by
    unfold Float64.lower
    split <;> simp
  have hLpos : (0 : ℚ) < (x.lower.1 : ℚ) * (2 : ℚ) ^ x.lower.2 :=
    mul_pos (by exact_mod_cast hL1) (zpow_pos h2 _)
  have hqpos : (0 : ℚ) < (a : ℚ) / b := lt_of_lt_of_le hLpos hlo
  have ha : 0 < a := by
    rcases Nat.eq_zero_or_pos a with h | h
    · rw [h] at hqpos
      simp at hqpos
    · exact h
  generalize hq : (a : ℚ) / b = q at hlo hup hodd hqpos
  generalize ht : (2 : ℚ) ^ x.ulpExp = t at hzE hz1 hz2 hz52 hz53 hz51 hz51' hup hodd
  -- the exponent when the quotient is in the binade of a normal `x`
  have hue_norm : x.expo.val ≠ 0 → 4503599627370496 * t ≤ q →
      max (floorLog2 a b - 52) (-1074) = x.ulpExp := by
    intro h0 hw
    have hEv : x.ulpExp = (x.expo.val : Int) - 1075 := by simp [Float64.ulpExp, h0]
    have hfl : floorLog2 a b = 52 + x.ulpExp := by
      apply floorLog2_unique a b ha hb
      · rw [hz52, hq]
        exact hw
      · rw [hz53, hq]
        have : ((x.mant : ℚ) + 1 / 2) * t < 9007199254740992 * t := by
          apply mul_lt_mul_of_pos_right _ hzE
          linarith
        linarith
    rw [hfl]
    omega
  have hue_small : q < 4503599627370496 * t → x.ulpExp = -1074 →
      max (floorLog2 a b - 52) (-1074) = x.ulpExp := by
    intro hw hE
    rw [hE]
    apply floorLog2_small a b ha hb
    have h52 := hz52
    rw [hE] at h52
    have : (52 : Int) + -1074 = -1022 := by norm_num
    rw [this] at h52
    rw [h52, hq]
    exact hw
  by_cases hc : 4503599627370496 < x.mant ∨ x.ulpExp = -1074
  · -- the float below is a whole unit away
    have hL : (x.lower.1 : ℚ) * (2 : ℚ) ^ x.lower.2 = ((x.mant : ℚ) - 1 / 2) * t := by
      simp only [Float64.lower, if_pos hc]
      rw [hz1]
      push_cast [Nat.cast_sub hM]
      ring
    rw [hL] at hlo hodd
    have hue : max (floorLog2 a b - 52) (-1074) = x.ulpExp := by
      by_cases hw : 4503599627370496 * t ≤ q
      · by_cases h0 : x.expo.val = 0
        · exfalso
          have hMv : x.mant = x.frac.val := by simp [Float64.mant, h0]
          have hMle : (x.mant : ℚ) ≤ 4503599627370495 := by
            have : x.mant ≤ 4503599627370495 := by omega
            exact_mod_cast this
          have : ((x.mant : ℚ) + 1 / 2) * t < 4503599627370496 * t := by
            apply mul_lt_mul_of_pos_right _ hzE
            linarith
          linarith
        · exact hue_norm h0 hw
      · have hw' : q < 4503599627370496 * t := not_le.1 hw
        apply hue_small hw'
        rcases hc with hc | hc
        · exfalso
          have hMge : (4503599627370497 : ℚ) ≤ x.mant := by
            have : 4503599627370497 ≤ x.mant := by omega
            exact_mod_cast this
          have : 4503599627370496 * t < ((x.mant : ℚ) - 1 / 2) * t := by
            apply mul_lt_mul_of_pos_right _ hzE
            linarith
          linarith
        · exact hc
    subst hq
    subst ht
    exact roundToFloat64_center x hfin a b ha hb hue hlo hup hodd
  · -- `x` is a power of two and the float below is half a unit away
    have hc1 : ¬ 4503599627370496 < x.mant := fun h => hc (Or.inl h)
    have hc2 : x.ulpExp ≠ -1074 := fun h => hc (Or.inr h)
    have h0 : x.expo.val ≠ 0 := by
      intro h0
      apply hc2
      simp [Float64.ulpExp, h0]
    have hEv : x.ulpExp = (x.expo.val : Int) - 1075 := by simp [Float64.ulpExp, h0]
    have hMv : x.mant = 4503599627370496 + x.frac.val := by simp [Float64.mant, h0]
    have hM52 : x.mant = 4503599627370496 := by omega
    have hM52q : (x.mant : ℚ) = 4503599627370496 := by exact_mod_cast hM52
    have hL : (x.lower.1 : ℚ) * (2 : ℚ) ^ x.lower.2 = ((x.mant : ℚ) - 1 / 4) * t := by
      simp only [Float64.lower, if_neg hc]
      rw [hz2]
      have h1 : 1 ≤ x.mant * 2 := by omega
      push_cast [Nat.cast_sub h1]
      ring
    rw [hL] at hlo hodd
    by_cases hw : 4503599627370496 * t ≤ q
    · have hue := hue_norm h0 hw
      have hlo' : ((x.mant : ℚ) - 1 / 2) * t < q := by
        rw [hM52q]
        linarith
      subst hq
      subst ht
      apply roundToFloat64_center x hfin a b ha hb hue (le_of_lt hlo') hup
      intro ho
      exact ⟨hlo', (hodd ho).2⟩
    · have hw' : q < 4503599627370496 * t := not_le.1 hw
      rw [hM52q] at hlo
      have hfl : floorLog2 a b = 51 + x.ulpExp := by
        apply floorLog2_unique a b ha hb
        · rw [hz51, hq]
          linarith
        · rw [hz51', hq]
          exact hw'
      have hue : max (floorLog2 a b - 52) (-1074) = x.ulpExp - 1 := by
        rw [hfl]
        omega
      have hzE1 : (0 : ℚ) < (2 : ℚ) ^ (x.ulpExp - 1) := zpow_pos h2 _
      have hn : roundHalfEven (scale2 a b (x.ulpExp - 1)).1 (scale2 a b (x.ulpExp - 1)).2
          = 9007199254740992 := by
        apply roundHalfEven_ratio _ _ _ (scale2_pos a b (x.ulpExp - 1) ha hb).2
        · rw [scale2_spec a b (x.ulpExp - 1) hb, le_div_iff₀ hzE1, hz1, hq]
          push_cast
          linarith
        · rw [scale2_spec a b (x.ulpExp - 1) hb, div_le_iff₀ hzE1, hz1, hq]
          push_cast
          linarith
        · intro ho
          exact absurd ho (by norm_num)
      rw [roundToFloat64_carry x.sign a b ha.ne' (x.ulpExp - 1) hue hn]
      rw [if_neg (by omega)]
      rw [Float64.ext_fields x x.sign (x.ulpExp - 1 + 1 + 1075).toNat 0 rfl (by omega) (by omega)]

/-! ### The digits of FormatFloat -/

theorem decFrac_spec (d : Nat) (k : Int) :
    0 < (decFrac d k).2 ∧
      ((decFrac d k).1 : ℚ) / ((decFrac d k).2 : ℚ) = (d : ℚ) * (10 : ℚ) ^ k := by
  unfold decFrac
  split
  · rename_i hk
    obtain ⟨n, rfl⟩ := Int.eq_ofNat_of_zero_le hk
    simp
  · rename_i hk
    obtain ⟨n, hn⟩ := Int.eq_ofNat_of_zero_le (by omega : 0 ≤ -k)
    have hkn : k = -(n : Int) := by omega
    subst hkn
    refine ⟨by simp, ?_⟩
    simp only [neg_neg, Int.toNat_ofNat, zpow_neg, zpow_natCast]
    push_cast
    rfl

theorem binFrac_spec (n : Nat) (e : Int) :
    0 < (binFrac n e).2 ∧
      ((binFrac n e).1 : ℚ) / ((binFrac n e).2 : ℚ) = (n : ℚ) * (2 : ℚ) ^ e := by
  unfold binFrac
  split
  · rename_i hk
    obtain ⟨m, rfl⟩ := Int.eq_ofNat_of_zero_le hk
    simp
  · rename_i hk
    obtain ⟨m, hm⟩ := Int.eq_ofNat_of_zero_le (by omega : 0 ≤ -e)
    have hkn : e = -(m : Int) := by omega
    subst hkn
    refine ⟨by simp, ?_⟩
    simp only [neg_neg, Int.toNat_ofNat, zpow_neg, zpow_natCast]
    push_cast
    rfl

theorem decLtBin_iff (d : Nat) (k : Int) (n : Nat) (e : Int) :
    decLtBin d k n e = true ↔ (d : ℚ) * (10 : ℚ) ^ k < (n : ℚ) * (2 : ℚ) ^ e := by
  obtain ⟨hd, hdv⟩ := decFrac_spec d k
  obtain ⟨hb, hbv⟩ := binFrac_spec n e
  have hdq : (0 : ℚ) < ((decFrac d k).2 : ℚ) := by exact_mod_cast hd
  have hbq : (0 : ℚ) < ((binFrac n e).2 : ℚ) := by exact_mod_cast hb
  rw [← hdv, ← hbv, div_lt_div_iff₀ hdq hbq]
  unfold decLtBin
  rw [decide_eq_true_iff]
  exact_mod_cast Iff.rfl

theorem decLeBin_iff (d : Nat) (k : Int) (n : Nat) (e : Int) :
    decLeBin d k n e = true ↔ (d : ℚ) * (10 : ℚ) ^ k ≤ (n : ℚ) * (2 : ℚ) ^ e := by
  obtain ⟨hd, hdv⟩ := decFrac_spec d k
  obtain ⟨hb, hbv⟩ := binFrac_spec n e
  have hdq : (0 : ℚ) < ((decFrac d k).2 : ℚ) := by exact_mod_cast hd
  have hbq : (0 : ℚ) < ((binFrac n e).2 : ℚ) := by exact_mod_cast hb
  rw [← hdv, ← hbv, div_le_div_iff₀ hdq hbq]
  unfold decLeBin
  rw [decide_eq_true_iff]
  exact_mod_cast Iff.rfl

theorem decimalToFloat64_interval (x : Float64) (hfin : x.expo.val ≠ 2047)
    (hnz : x.isZero = false) (d : Nat) (k : Int) (hin : x.within ((d : ℚ) * (10 : ℚ) ^ k)) :
    decimalToFloat64 x.sign d k = (x, false) := by
  obtain ⟨hd, hdv⟩ := decFrac_spec d k
  rw [← hdv] at hin
  have h := roundToFloat64_interval x hfin hnz _ _ hd hin
  unfold decFrac at h
  unfold decimalToFloat64
  split
  · rename_i hk
    simpa [hk] using h
  · rename_i hk
    simpa [hk] using h

theorem exactDecimal_spec (m : Nat) (e : Int) :
    ((exactDecimal m e).1 : ℚ) * (10 : ℚ) ^ (exactDecimal m e).2 = (m : ℚ) * (2 : ℚ) ^ e := by
  unfold exactDecimal
  split
  · rename_i he
    obtain ⟨n, rfl⟩ := Int.eq_ofNat_of_zero_le he
    simp
  · rename_i he
    obtain ⟨n, hn⟩ := Int.eq_ofNat_of_zero_le (by omega : 0 ≤ -e)
    have hen : e = -(n : Int) := by omega
    subst hen
    simp only [neg_neg, Int.toNat_ofNat, zpow_neg, zpow_natCast]
    push_cast
    have h10 : (10 : ℚ) ^ n = 5 ^ n * 2 ^ n := by
      rw [← mul_pow]
      norm_num
    rw [h10]
    field_simp
    ring

/-- A finite non-zero float lies strictly between its bounds. -/
theorem Float64.within_self (x : Float64) (hnz : x.isZero = false) :
    (x.lower.1 : ℚ) * (2 : ℚ) ^ x.lower.2 < (x.mant : ℚ) * (2 : ℚ) ^ x.ulpExp ∧
      (x.mant : ℚ) * (2 : ℚ) ^ x.ulpExp < (x.upper.1 : ℚ) * (2 : ℚ) ^ x.upper.2 := by
  have hM := x.mant_pos hnz
  have h20 : (2 : ℚ) ≠ 0 := by norm_num
  have hzE : (0 : ℚ) < (2 : ℚ) ^ x.ulpExp := zpow_pos (by norm_num) _
  have hz1 : (2 : ℚ) ^ (x.ulpExp - 1) = (2 : ℚ) ^ x.ulpExp / 2 := by
    rw [zpow_sub_one₀ h20]
    rfl
  have hz2 : (2 : ℚ) ^ (x.ulpExp - 1 - 1) = (2 : ℚ) ^ x.ulpExp / 4 := by
    rw [zpow_sub_one₀ h20, zpow_sub_one₀ h20]
    ring
  constructor
  · unfold Float64.lower
    split
    · simp only
      rw [hz1]
      push_cast [Nat.cast_sub hM]
      nlinarith
    · simp only
      rw [hz2]
      have h1 : 1 ≤ x.mant * 2 := by omega
      push_cast [Nat.cast_sub h1]
      nlinarith
  · simp only [Float64.upper]
    rw [hz1]
    push_cast
    nlinarith

theorem shortestAt_within (x : Float64) (hnz : x.isZero = false) (d : Nat) (k : Int)
    (nd n : Nat) (r : Nat × Int)
    (hval : (d : ℚ) * (10 : ℚ) ^ k = (x.mant : ℚ) * (2 : ℚ) ^ x.ulpExp)
    (h : shortestAt x d k nd n = some r) :
    x.within ((r.1 : ℚ) * (10 : ℚ) ^ r.2) := by
  obtain ⟨hsl, hsu⟩ := x.within_self hnz
  rw [← hval] at hsl hsu
  have h10 : (0 : ℚ) < (10 : ℚ) ^ k := zpow_pos (by norm_num) _
  have hpow : 0 < 10 ^ (nd - n) := by positivity
  have hk1 : (10 : ℚ) ^ (k + ((nd - n : Nat) : Int)) = (10 : ℚ) ^ k * ((10 ^ (nd - n) : Nat) : ℚ) := by
    rw [zpow_add₀ (by norm_num : (10 : ℚ) ≠ 0), zpow_natCast]
    push_cast
    rfl
  -- cutting rounds down, one more in the last digit rounds up
  have hdn : ((d / 10 ^ (nd - n) : Nat) : ℚ) * (10 : ℚ) ^ (k + ((nd - n : Nat) : Int))
      ≤ (d : ℚ) * (10 : ℚ) ^ k := by
    rw [hk1]
    have h1 : ((d / 10 ^ (nd - n) : Nat) : ℚ) * ((10 ^ (nd - n) : Nat) : ℚ) ≤ (d : ℚ) := by
      exact_mod_cast Nat.div_mul_le_self d (10 ^ (nd - n))
    nlinarith
  have hup : (d : ℚ) * (10 : ℚ) ^ k
      < ((d / 10 ^ (nd - n) + 1 : Nat) : ℚ) * (10 : ℚ) ^ (k + ((nd - n : Nat) : Int)) := by
    rw [hk1]
    have h1 : (d : ℚ) < ((d / 10 ^ (nd - n) + 1 : Nat) : ℚ) * ((10 ^ (nd - n) : Nat) : ℚ) := by
      have := Nat.lt_mul_div_succ d hpow
      rw [Nat.mul_comm] at this
      exact_mod_cast this
    nlinarith
  -- what the two tests say
  have hokdown : (if (x.mant % 2 == 0) = true
        then !decLtBin (d / 10 ^ (nd - n)) (k + ((nd - n : Nat) : Int)) x.lower.1 x.lower.2
        else !decLeBin (d / 10 ^ (nd - n)) (k + ((nd - n : Nat) : Int)) x.lower.1 x.lower.2) = true →
      x.within (((d / 10 ^ (nd - n) : Nat) : ℚ) * (10 : ℚ) ^ (k + ((nd - n : Nat) : Int))) := by
    intro hok
    by_cases hev : x.mant % 2 = 0
    · have hb : (x.mant % 2 == 0) = true := by simp [hev]
      rw [if_pos hb] at hok
      have hnlt : decLtBin (d / 10 ^ (nd - n)) (k + ((nd - n : Nat) : Int)) x.lower.1 x.lower.2
          = false := by simpa using hok
      have h1 : ¬ (((d / 10 ^ (nd - n) : Nat) : ℚ) * (10 : ℚ) ^ (k + ((nd - n : Nat) : Int))
          < (x.lower.1 : ℚ) * (2 : ℚ) ^ x.lower.2) := by
        rw [← decLtBin_iff, hnlt]
        simp
      refine ⟨not_lt.1 h1, le_of_lt (lt_of_le_of_lt hdn hsu), ?_⟩
      intro ho
      omega
    · have hb : ¬ (x.mant % 2 == 0) = true := by simp [hev]
      rw [if_neg hb] at hok
      have hnle : decLeBin (d / 10 ^ (nd - n)) (k + ((nd - n : Nat) : Int)) x.lower.1 x.lower.2
          = false := by simpa using hok
      have h1 : ¬ (((d / 10 ^ (nd - n) : Nat) : ℚ) * (10 : ℚ) ^ (k + ((nd - n : Nat) : Int))
          ≤ (x.lower.1 : ℚ) * (2 : ℚ) ^ x.lower.2) := by
        rw [← decLeBin_iff, hnle]
        simp
      have h2 := not_le.1 h1
      exact ⟨le_of_lt h2, le_of_lt (lt_of_le_of_lt hdn hsu),
        fun _ => ⟨h2, lt_of_le_of_lt hdn hsu⟩⟩
  have hokup : (if (x.mant % 2 == 0) = true
        then decLeBin (d / 10 ^ (nd - n) + 1) (k + ((nd - n : Nat) : Int)) x.upper.1 x.upper.2
        else decLtBin (d / 10 ^ (nd - n) + 1) (k + ((nd - n : Nat) : Int)) x.upper.1 x.upper.2) = true →
      x.within (((d / 10 ^ (nd - n) + 1 : Nat) : ℚ) * (10 : ℚ) ^ (k + ((nd - n : Nat) : Int))) := by
    intro hok
    by_cases hev : x.mant % 2 = 0
    · have hb : (x.mant % 2 == 0) = true := by simp [hev]
      rw [if_pos hb] at hok
      have h1 := (decLeBin_iff _ _ _ _).1 hok
      refine ⟨le_of_lt (lt_trans hsl hup), h1, ?_⟩
      intro ho
      omega
    · have hb : ¬ (x.mant % 2 == 0) = true := by simp [hev]
      rw [if_neg hb] at hok
      have h1 := (decLtBin_iff _ _ _ _).1 hok
      exact ⟨le_of_lt (lt_trans hsl hup), le_of_lt h1, fun _ => ⟨lt_trans hsl hup, h1⟩⟩
  have key : ∀ (od ou su : Bool) (dn up : Nat) (k1 : Int),
      (if (od && ou) = true then some (if su = true then up else dn, k1)
        else if od = true then some (dn, k1)
        else if ou = true then some (up, k1)
        else none) = some r →
      (od = true ∧ r = (dn, k1)) ∨ (ou = true ∧ r = (up, k1)) := by
    intro od ou su dn up k1 hr
    cases od <;> cases ou <;> cases su <;> simp at hr <;> simp [← hr]
  unfold shortestAt at h
  rcases key _ _ _ _ _ _ h with ⟨hd, hr⟩ | ⟨hu, hr⟩
  · rw [hr]
    exact hokdown hd
  · rw [hr]
    exact hokup hu

/-- The digits FormatFloat prints for a finite non-zero float lie between its bounds. -/
theorem roundShortest_within (x : Float64) (hnz : x.isZero = false) :
    x.within (((roundShortest x).1 : ℚ) * (10 : ℚ) ^ (roundShortest x).2) := by
  have hval := exactDecimal_spec x.mant x.ulpExp
  unfold roundShortest
  simp only
  cases hf : (List.range (decLen (exactDecimal x.mant x.ulpExp).1)).findSome?
      (fun i => shortestAt x (exactDecimal x.mant x.ulpExp).1 (exactDecimal x.mant x.ulpExp).2
        (decLen (exactDecimal x.mant x.ulpExp).1) (i + 1)) with
  | some r =>
    obtain ⟨i, _, hi⟩ := List.exists_of_findSome?_eq_some hf
    simp only [Option.getD_some]
    exact shortestAt_within x hnz _ _ _ _ r hval hi
  | none =>
    simp only [Option.getD_none]
    obtain ⟨hsl, hsu⟩ := x.within_self hnz
    rw [hval]
    exact ⟨le_of_lt hsl, le_of_lt hsu, fun _ => ⟨hsl, hsu⟩⟩

theorem trimZeros_spec (fuel d : Nat) (k : Int) :
    ((trimZeros fuel d k).1 : ℚ) * (10 : ℚ) ^ (trimZeros fuel d k).2 = (d : ℚ) * (10 : ℚ) ^ k := by
  induction fuel generalizing d k with
  | zero => simp [trimZeros]
  | succ f ih =>
    unfold trimZeros
    split
    · rename_i hc
      rw [ih]
      have hd : d = 10 * (d / 10) := by omega
      have hdq : (d : ℚ) = 10 * ((d / 10 : Nat) : ℚ) := by exact_mod_cast hd
      rw [zpow_add_one₀ (by norm_num : (10 : ℚ) ≠ 0)]
      rw [hdq]
      ring
    · rfl

/-! ### Reading decimal text -/

theorem isDigit_iff (c : Char) : isDigit c = true ↔ 48 ≤ c.toNat ∧ c.toNat ≤ 57 := by
  unfold isDigit
  simp only [Bool.and_eq_true, decide_eq_true_eq]
  rfl

theorem ofNat_digit (k : Nat) (hk : k < 10) :
    isDigit (Char.ofNat (48 + k)) = true ∧ digitVal (Char.ofNat (48 + k)) = k := by
  interval_cases k <;> decide

theorem digit_ne (c : Char) (h : isDigit c = true) (d : Char) (hd : d.toNat < 48 ∨ 57 < d.toNat) :
    c ≠ d := by
  rw [isDigit_iff] at h
  intro hcd
  subst hcd
  omega

theorem digitsRev_digits (fuel n : Nat) : ∀ c ∈ digitsRev fuel n, isDigit c = true := by
  induction fuel generalizing n with
  | zero => simp [digitsRev]
  | succ f ih =>
    unfold digitsRev
    split
    · simp
    · intro c hc
      rcases List.mem_cons.1 hc with h | h
      · rw [h]
        exact (ofNat_digit (n % 10) (Nat.mod_lt _ (by norm_num))).1
      · exact ih _ c h

theorem natDigits_digits (n : Nat) : ∀ c ∈ natDigits n, isDigit c = true := by
  unfold natDigits
  split
  · intro c hc
    simp only [List.mem_singleton] at hc
    subst hc
    decide
  · intro c hc
    exact digitsRev_digits n n c (List.mem_reverse.1 hc)

theorem natDigits_ne_nil (n : Nat) : natDigits n ≠ [] := by
  unfold natDigits
  split
  · simp
  · rename_i hn
    obtain ⟨k, rfl⟩ : ∃ k, n = k + 1 := ⟨n - 1, by omega⟩
    simp [digitsRev]

theorem foldl_digitsRev (fuel n acc : Nat) (h : n ≤ fuel) :
    (digitsRev fuel n).reverse.foldl (fun a c => a * 10 + digitVal c) acc
      = acc * 10 ^ (digitsRev fuel n).length + n := by
  induction fuel generalizing n acc with
  | zero =>
    have : n = 0 := by omega
    subst this
    simp [digitsRev]
  | succ f ih =>
    unfold digitsRev
    split
    · rename_i h0
      subst h0
      simp
    · rename_i h0
      have hle : n / 10 ≤ f := by omega
      simp only [List.reverse_cons, List.foldl_append, List.foldl_cons, List.foldl_nil,
        List.length_cons]
      rw [ih (n / 10) acc hle, (ofNat_digit (n % 10) (Nat.mod_lt _ (by norm_num))).2, pow_succ]
      have := Nat.div_add_mod n 10
      nlinarith [this]

theorem foldl_natDigits (n acc : Nat) :
    (natDigits n).foldl (fun a c => a * 10 + digitVal c) acc
      = acc * 10 ^ (natDigits n).length + n := by
  unfold natDigits
  split
  · rename_i h0
    subst h0
    simp [digitVal]
  · rw [List.length_reverse]
    exact foldl_digitsRev n n acc (le_refl n)

theorem foldl_zeros (k acc : Nat) :
    (List.replicate k '0').foldl (fun a c => a * 10 + digitVal c) acc = acc * 10 ^ k := by
  induction k generalizing acc with
  | zero => simp
  | succ k ih =>
    simp only [List.replicate_succ, List.foldl_cons]
    rw [ih]
    simp only [digitVal, pow_succ]
    have : ('0' : Char).toNat - 48 = 0 := by decide
    rw [this]
    ring

theorem readDigits_digits (ds rest : List Char) (acc n : Nat)
    (hds : ∀ c ∈ ds, isDigit c = true) (hrest : ∀ c ∈ rest.head?, isDigit c = false) :
    readDigits (ds ++ rest) acc n
      = (ds.foldl (fun a c => a * 10 + digitVal c) acc, n + ds.length, rest) := by
  induction ds generalizing acc n with
  | nil =>
    cases rest with
    | nil => simp [readDigits]
    | cons c r =>
      have : isDigit c = false := hrest c (by simp)
      simp [readDigits, this]
  | cons d ds ih =>
    have hd : isDigit d = true := hds d (List.mem_cons_self _ _)
    have hstep : readDigits (d :: ds ++ rest) acc n
        = readDigits (ds ++ rest) (acc * 10 + digitVal d) (n + 1) := by
      simp only [List.cons_append, readDigits, hd, if_true]
      rfl
    rw [hstep, ih _ _ (fun c hc => hds c (List.mem_cons_of_mem _ hc))]
    simp only [List.foldl_cons, List.length_cons, Prod.mk.injEq, true_and, and_true]
    omega
theorem readSign_signText (neg : Bool) (t : List Char) (ht : ∀ c ∈ t.head?, isDigit c = true) :
    readSign (signText neg ++ t) = (neg, t) := by
  cases neg with
  | true => simp [signText, readSign]
  | false =>
    cases t with
    | nil => simp [signText, readSign]
    | cons c r =>
      have hc : isDigit c = true := ht c (by simp)
      have h1 : c ≠ '-' := digit_ne c hc '-' (by decide)
      have h2 : c ≠ '+' := digit_ne c hc '+' (by decide)
      simp [signText, readSign, h1, h2]

/-- Parsing the text `sign, integer digits, point, fraction digits`. -/
theorem readFloat_point (neg : Bool) (ip fd : List Char) (hip : ip ≠ [])
    (hipd : ∀ c ∈ ip, isDigit c = true) (hfd : ∀ c ∈ fd, isDigit c = true) :
    readFloat (signText neg ++ (ip ++ '.' :: fd)) =
      some ⟨neg, fd.foldl (fun a c => a * 10 + digitVal c)
        (ip.foldl (fun a c => a * 10 + digitVal c) 0), -(fd.length : Int)⟩ := by
  have hhead : ∀ c ∈ (ip ++ '.' :: fd).head?, isDigit c = true := by
    cases ip with
    | nil => exact absurd rfl hip
    | cons c r =>
      intro x hx
      simp only [List.cons_append, List.head?_cons, Option.mem_def, Option.some.injEq] at hx
      subst hx
      exact hipd _ (List.mem_cons_self _ _)
  have h1 := readDigits_digits ip ('.' :: fd) 0 0 hipd (by
    intro c hc
    simp only [List.head?_cons, Option.mem_def, Option.some.injEq] at hc
    subst hc
    decide)
  have h2 := readDigits_digits fd [] (ip.foldl (fun a c => a * 10 + digitVal c) 0) 0 hfd
    (by simp)
  rw [List.append_nil] at h2
  have hlen : 0 < ip.length := List.length_pos.2 hip
  unfold readFloat
  simp only [readSign_signText neg _ hhead, h1, List.head?_cons, if_true, List.tail_cons, h2]
  rw [if_neg (by omega)]
  simp

/-- Parsing the text `sign, integer digits`. -/
theorem readFloat_integer (neg : Bool) (ip : List Char) (hip : ip ≠ [])
    (hipd : ∀ c ∈ ip, isDigit c = true) :
    readFloat (signText neg ++ ip) =
      some ⟨neg, ip.foldl (fun a c => a * 10 + digitVal c) 0, 0⟩ := by
  have hhead : ∀ c ∈ ip.head?, isDigit c = true := by
    cases ip with
    | nil => exact absurd rfl hip
    | cons c r =>
      intro x hx
      simp only [List.head?_cons, Option.mem_def, Option.some.injEq] at hx
      subst hx
      exact hipd _ (List.mem_cons_self _ _)
  have h1 := readDigits_digits ip [] 0 0 hipd (by simp)
  rw [List.append_nil] at h1
  have hlen : 0 < ip.length := List.length_pos.2 hip
  unfold readFloat
  simp only [readSign_signText neg _ hhead, h1, List.head?_nil]
  simp [hip]

/-- The text fmtF builds: integer digits, then nothing or a point and fraction digits. -/
theorem fmtF_shape (d : Nat) (e10 : Int) :
    ∃ ip fd, ip ≠ [] ∧ (∀ c ∈ ip, isDigit c = true) ∧ (∀ c ∈ fd, isDigit c = true) ∧
      (fmtF d e10 = ip ∨ fmtF d e10 = ip ++ '.' :: fd) := by
  unfold fmtF
  split
  · split
    · exact ⟨['0'], [], by simp, by decide, by simp, Or.inl rfl⟩
    · refine ⟨natDigits d ++ List.replicate e10.toNat '0', [], ?_, ?_, by simp, Or.inl rfl⟩
      · simp [natDigits_ne_nil]
      · intro c hc
        rcases List.mem_append.1 hc with h | h
        · exact natDigits_digits d c h
        · rw [List.eq_of_mem_replicate h]
          decide
  · simp only
    split
    · rename_i hlt
      refine ⟨(natDigits d).take ((natDigits d).length - (-e10).toNat),
        (natDigits d).drop ((natDigits d).length - (-e10).toNat), ?_, ?_, ?_, Or.inr rfl⟩
      · intro h
        have := congrArg List.length h
        simp only [List.length_take, List.length_nil] at this
        omega
      · intro c hc
        exact natDigits_digits d c (List.mem_of_mem_take hc)
      · intro c hc
        exact natDigits_digits d c (List.mem_of_mem_drop hc)
    · refine ⟨['0'], List.replicate ((-e10).toNat - (natDigits d).length) '0' ++ natDigits d,
        by simp, by decide, ?_, Or.inr rfl⟩
      intro c hc
      rcases List.mem_append.1 hc with h | h
      · rw [List.eq_of_mem_replicate h]
        decide
      · exact natDigits_digits d c h

/-- ParseFloat's reading of the text fmtF builds for `d * 10 ^ e10`, `e10 ≤ 0`. -/
theorem readFloat_fmtF (neg : Bool) (d : Nat) (e10 : Int) (he : e10 ≤ 0) :
    readFloat (signText neg ++ fmtF d e10) = some ⟨neg, d, e10⟩ := by
  unfold fmtF
  split
  · rename_i h0
    have he0 : e10 = 0 := le_antisymm he h0
    subst he0
    split
    · rename_i hd
      subst hd
      rw [readFloat_integer neg ['0'] (by simp) (by decide)]
      simp [digitVal]
    · simp only [Int.toNat_zero, List.replicate_zero, List.append_nil]
      rw [readFloat_integer neg (natDigits d) (natDigits_ne_nil d) (natDigits_digits d),
        foldl_natDigits]
      simp
  · rename_i hneg
    simp only
    have hf : ((-e10).toNat : Int) = -e10 := Int.toNat_of_nonneg (by omega)
    split
    · rename_i hlt
      rw [readFloat_point neg _ _ (by
          intro h
          have := congrArg List.length h
          simp only [List.length_take, List.length_nil] at this
          omega)
        (fun c hc => natDigits_digits d c (List.mem_of_mem_take hc))
        (fun c hc => natDigits_digits d c (List.mem_of_mem_drop hc))]
      rw [← List.foldl_append, List.take_append_drop, foldl_natDigits]
      simp only [zero_mul, zero_add, List.length_drop, Option.some.injEq, Decimal.mk.injEq,
        true_and]
      omega
    · rename_i hge
      have hfd : ∀ c ∈ List.replicate ((-e10).toNat - (natDigits d).length) '0' ++ natDigits d,
          isDigit c = true := by
        intro c hc
        rcases List.mem_append.1 hc with h | h
        · rw [List.eq_of_mem_replicate h]
          decide
        · exact natDigits_digits d c h
      have := readFloat_point neg ['0'] _ (by simp) (by decide) hfd
      simp only [List.singleton_append] at this
      rw [this]
      rw [List.foldl_append, foldl_zeros, foldl_natDigits]
      simp only [List.foldl_cons, List.foldl_nil, digitVal, List.length_append,
        List.length_replicate, Option.some.injEq, Decimal.mk.injEq, true_and]
      have h48 : ('0' : Char).toNat - 48 = 0 := by decide
      rw [h48]
      refine ⟨by simp, ?_⟩
      push_cast
      omega
theorem lower_digit (c : Char) (h : isDigit c = true) : lower c = c := by
  rw [isDigit_iff] at h
  unfold lower
  have : ¬ ('A' ≤ c) := by
    intro hA
    have : 65 ≤ c.toNat := hA
    omega
  simp [this]

theorem special_decimal (neg : Bool) (t : List Char) (ht : t ≠ [])
    (hd : ∀ c ∈ t.head?, isDigit c = true) : special (signText neg ++ t) = none := by
  cases t with
  | nil => exact absurd rfl ht
  | cons c r =>
    have hc : isDigit c = true := hd c (by simp)
    have hi : c ≠ 'i' := digit_ne c hc 'i' (by decide)
    have hli : lower 'i' = 'i' := by decide
    cases neg with
    | true =>
      simp [signText, special, equalIgnoreCase, lower_digit c hc, hi, hli]
    | false =>
      have h1 : c ≠ '+' := digit_ne c hc '+' (by decide)
      have h2 : c ≠ '-' := digit_ne c hc '-' (by decide)
      have h3 : c ≠ 'n' := digit_ne c hc 'n' (by decide)
      have h4 : c ≠ 'N' := digit_ne c hc 'N' (by decide)
      have h5 : c ≠ 'I' := digit_ne c hc 'I' (by decide)
      simp [signText, special, h1, h2, h3, h4, h5, hi]

theorem fmtF_head_digit (d : Nat) (e10 : Int) :
    fmtF d e10 ≠ [] ∧ ∀ c ∈ (fmtF d e10).head?, isDigit c = true := by
  obtain ⟨ip, fd, hip, hipd, _, h⟩ := fmtF_shape d e10
  have hhead : ∀ c ∈ ip.head?, isDigit c = true := by
    cases ip with
    | nil => exact absurd rfl hip
    | cons c r =>
      intro x hx
      simp only [List.head?_cons, Option.mem_def, Option.some.injEq] at hx
      subst hx
      exact hipd _ (List.mem_cons_self _ _)
  rcases h with h | h
  · rw [h]
    exact ⟨hip, hhead⟩
  · rw [h]
    refine ⟨by simp [hip], ?_⟩
    cases ip with
    | nil => exact absurd rfl hip
    | cons c r => simpa using hhead


/-- ParseFloat's reading of the text fmtF builds for `d * 10 ^ e10`, `0 ≤ e10`. -/
theorem readFloat_fmtF_integer (neg : Bool) (d : Nat) (e10 : Int) (he : 0 ≤ e10) :
    readFloat (signText neg ++ fmtF d e10) = some ⟨neg, d * 10 ^ e10.toNat, 0⟩ := by
  unfold fmtF
  rw [if_pos he]
  split
  · rename_i hd
    subst hd
    rw [readFloat_integer neg ['0'] (by simp) (by decide)]
    simp [digitVal]
  · have hdig : ∀ c ∈ natDigits d ++ List.replicate e10.toNat '0', isDigit c = true := by
      intro c hc
      rcases List.mem_append.1 hc with h | h
      · exact natDigits_digits d c h
      · rw [List.eq_of_mem_replicate h]
        decide
    rw [readFloat_integer neg _ (by simp [natDigits_ne_nil]) hdig,
      List.foldl_append, foldl_natDigits, foldl_zeros]
    simp

/-- ParseFloat reads the text fmtF builds for `d * 10 ^ e10` as that decimal. -/
theorem ParseFloat_fmtF (neg : Bool) (d : Nat) (e10 : Int) :
    ParseFloat (signText neg ++ fmtF d e10) =
      ((decimalToFloat64 neg d e10).1,
        if (decimalToFloat64 neg d e10).2 then some Error.ErrRange else none) := by
  unfold ParseFloat
  rw [special_decimal neg _ (fmtF_head_digit d e10).1 (fmtF_head_digit d e10).2]
  by_cases he : 0 ≤ e10
  · rw [readFloat_fmtF_integer neg d e10 he]
    have : decimalToFloat64 neg (d * 10 ^ e10.toNat) 0 = decimalToFloat64 neg d e10 := by
      unfold decimalToFloat64
      simp [he]
    simp only [this]
  · rw [readFloat_fmtF neg d e10 (by omega)]

/-- FormatFloat of a finite value is a decimal text that ParseFloat maps back to it. -/
theorem FormatFloat_finite (x : Float64) (hfin : x.expo.val ≠ 2047) :
    (∃ d e10, FormatFloat x = signText x.sign ++ fmtF d e10) ∧
      ParseFloat (FormatFloat x) = (x, none) := by
  have hnan : x.isNaN = false := by simp [Float64.isNaN, hfin]
  have hinf : x.isInf = false := by simp [Float64.isInf, hfin]
  unfold FormatFloat
  simp only [hnan, hinf, Bool.false_eq_true, if_false]
  cases hz : x.isZero with
  | true =>
    simp only [if_true]
    have hx : x = Float64.ofFields x.sign 0 0 := by
      simp only [Float64.isZero, Bool.and_eq_true, beq_iff_eq] at hz
      exact (Float64.ext_fields x x.sign 0 0 rfl hz.1 hz.2).symm
    refine ⟨⟨0, 0, rfl⟩, ?_⟩
    rw [hx]
    cases x.sign <;> decide
  | false =>
    simp only [Bool.false_eq_true, if_false]
    refine ⟨⟨_, _, rfl⟩, ?_⟩
    rw [ParseFloat_fmtF]
    have hin := roundShortest_within x hz
    rw [← trimZeros_spec (decLen (roundShortest x).1)] at hin
    rw [decimalToFloat64_interval x hfin hz _ _ hin]
    simp

/-- The text of FormatFloat for some values: 2^-24 (halfway between two decimals of 16
digits, of which the lower one is below the lower bound), 0.1, -0.3, 2^63, the float
nearest to 1e23 (whose upper bound is 1e23 itself), the largest float below 2, and
123456789.125. -/
theorem FormatFloat_examples :
    FormatFloat (Float64.ofFields false 999 0) = "0.00000005960464477539063".toList ∧
    FormatFloat (Float64.ofFields false 1019 2702159776422298) = "0.1".toList ∧
    FormatFloat (Float64.ofFields true 1021 900719925474099) = "-0.3".toList ∧
    FormatFloat (Float64.ofFields false 1086 0) = "9223372036854776000".toList ∧
    FormatFloat (Float64.ofFields false 1099 1456864850168566)
      = "100000000000000000000000".toList ∧
    FormatFloat (Float64.ofFields false 1023 4503599627370495)
      = "1.9999999999999998".toList ∧
    FormatFloat (Float64.ofFields false 1049 3781445243895808) = "123456789.125".toList := by
  decide

/-! ### Scanning the text of FormatFloat -/

theorem digit_mem_decimalDigits (c : Char) (h : isDigit c = true) : c ∈ decimalDigits := by
  rw [isDigit_iff] at h
  have hc : c = Char.ofNat c.toNat := (Char.ofNat_toNat c).symm
  generalize c.toNat = n at h hc
  obtain ⟨h1, h2⟩ := h
  subst hc
  interval_cases n <;> decide

theorem accept_of_not_mem (s : ss) (ok : List Char) (h : ∀ c ∈ s.input.head?, c ∉ ok) :
    s.accept ok = (false, s) := by
  unfold ss.accept
  split
  · rfl
  · rename_i r rest hin
    have : r ∉ ok := h r (by simp [hin])
    simp [this]

theorem accept_of_mem (r : Char) (rest buf ok : List Char) (h : r ∈ ok) :
    ss.accept ⟨r :: rest, buf⟩ ok = (true, ⟨rest, buf ++ [r]⟩) := by
  simp [ss.accept, h]

theorem accept3_of_not_mem (s : ss) (a b c : List Char) (h : ∀ x ∈ s.input.head?, x ∉ a) :
    s.accept3 a b c = (false, s) := by
  unfold ss.accept3
  simp [accept_of_not_mem s a h]

theorem acceptRun_digits (ds rest buf : List Char) (hds : ∀ c ∈ ds, isDigit c = true)
    (hrest : ∀ c ∈ rest.head?, isDigit c = false) :
    acceptRun decimalDigits (ds ++ rest) buf = ⟨rest, buf ++ ds⟩ := by
  induction ds generalizing buf with
  | nil =>
    cases rest with
    | nil => simp [acceptRun]
    | cons c r =>
      have hc : isDigit c = false := hrest c (by simp)
      have : c ∉ decimalDigits := by
        intro hm
        have : isDigit c = true := by
          revert hm
          simp only [decimalDigits]
          intro hm
          simp only [String.toList, List.mem_cons, List.mem_singleton, List.not_mem_nil,
            or_false] at hm
          rcases hm with h | h | h | h | h | h | h | h | h | h <;> (subst h; decide)
        rw [this] at hc
        cases hc
      simp [acceptRun, this]
  | cons d ds ih =>
    have hd : d ∈ decimalDigits := digit_mem_decimalDigits d (hds d (List.mem_cons_self _ _))
    have hstep : acceptRun decimalDigits (d :: ds ++ rest) buf
        = acceptRun decimalDigits (ds ++ rest) (buf ++ [d]) := by
      simp only [List.cons_append, acceptRun, hd, if_true]
      rfl
    rw [hstep, ih _ (fun c hc => hds c (List.mem_cons_of_mem _ hc))]
    simp

theorem tokenFraction_point (fd rest buf : List Char) (hfd : ∀ c ∈ fd, isDigit c = true)
    (hrest : ∀ c ∈ rest.head?, isDigit c = false) :
    tokenFraction ⟨'.' :: (fd ++ rest), buf⟩ = ⟨rest, buf ++ '.' :: fd⟩ := by
  unfold tokenFraction
  rw [accept_of_mem '.' _ _ _ (by decide)]
  simp only [if_true]
  rw [acceptRun_digits fd rest _ hfd hrest]
  simp

theorem tokenFraction_none (s : ss) (h : ∀ c ∈ s.input.head?, c ≠ '.') : tokenFraction s = s := by
  unfold tokenFraction
  rw [accept_of_not_mem s _ (by
    intro c hc
    have := h c hc
    simpa [String.toList] using this)]
  simp

theorem tokenExponent_none (s : ss) (h : ∀ c ∈ s.input.head?, c ∉ "eEp".toList) :
    tokenExponent s = s := by
  unfold tokenExponent
  rw [accept_of_not_mem s _ h]
  simp

theorem floatToken_decimal_aux (sg ip fd : List Char) (point : Bool) (t : Char)
    (rest : List Char) (hsg : sg = [] ∨ sg = ['-']) (hip : ip ≠ [])
    (hipd : ∀ c ∈ ip, isDigit c = true)
    (hfd : ∀ c ∈ fd, isDigit c = true) (ht : t = ',' ∨ t = ')') :
    floatToken (sg ++ (ip ++ (if point then '.' :: fd else [])) ++ t :: rest)
      = ⟨t :: rest, sg ++ (ip ++ (if point then '.' :: fd else []))⟩ := by
  obtain ⟨c, r, hcr⟩ : ∃ c r, ip = c :: r := by
    cases ip with
    | nil => exact absurd rfl hip
    | cons c r => exact ⟨c, r, rfl⟩
  have hc : isDigit c = true := hipd c (by simp [hcr])
  have htd : isDigit t = false := by
    rcases ht with h | h <;> (subst h; decide)
  have htdot : t ≠ '.' := by
    rcases ht with h | h <;> (subst h; decide)
  have hte : t ∉ "eEp".toList := by
    rcases ht with h | h <;> (subst h; decide)
  have hcn : c ∉ "nN".toList := by
    intro hm
    simp only [String.toList, List.mem_cons, List.mem_singleton, List.not_mem_nil, or_false] at hm
    rcases hm with h | h
    · exact digit_ne c hc 'n' (by decide) h
    · exact digit_ne c hc 'N' (by decide) h
  have hcs : c ∉ "+-".toList := by
    intro hm
    simp only [String.toList, List.mem_cons, List.mem_singleton, List.not_mem_nil, or_false] at hm
    rcases hm with h | h
    · exact digit_ne c hc '+' (by decide) h
    · exact digit_ne c hc '-' (by decide) h
  have hci : c ∉ "iI".toList := by
    intro hm
    simp only [String.toList, List.mem_cons, List.mem_singleton, List.not_mem_nil, or_false] at hm
    rcases hm with h | h
    · exact digit_ne c hc 'i' (by decide) h
    · exact digit_ne c hc 'I' (by decide) h
  -- the text after the sign
  obtain ⟨body, hbody⟩ : ∃ body, body = ip ++ (if point then '.' :: fd else []) ++ t :: rest :=
    ⟨_, rfl⟩
  have hbody_cons : ∃ tl, body = c :: tl := by
    rw [hbody, hcr]
    exact ⟨_, rfl⟩
  obtain ⟨tl, htl⟩ := hbody_cons
  have hin : sg ++ (ip ++ (if point then '.' :: fd else [])) ++ t :: rest = sg ++ body := by
    rw [hbody]
    simp
  rw [hin]
  -- NaN?
  have hn : ss.accept3 ⟨sg ++ body, []⟩ "nN".toList "aA".toList "nN".toList
      = (false, ⟨sg ++ body, []⟩) := by
    apply accept3_of_not_mem
    intro x hx
    rcases hsg with h | h
    · subst h
      simp only [List.nil_append, htl, List.head?_cons, Option.mem_def, Option.some.injEq] at hx
      subst hx
      exact hcn
    · subst h
      simp only [List.cons_append, List.head?_cons, Option.mem_def, Option.some.injEq] at hx
      subst hx
      decide
  -- sign
  have hs : (ss.accept ⟨sg ++ body, []⟩ "+-".toList).2 = ⟨body, sg⟩ := by
    rcases hsg with h | h
    · subst h
      rw [accept_of_not_mem]
      · simp
      · intro x hx
        simp only [List.nil_append, htl, List.head?_cons, Option.mem_def, Option.some.injEq] at hx
        subst hx
        exact hcs
    · subst h
      have := accept_of_mem '-' body [] "+-".toList (by decide)
      simp only [List.nil_append] at this
      simp only [List.cons_append, List.nil_append, this]
  -- Inf?
  have hi : ss.accept3 ⟨body, sg⟩ "iI".toList "nN".toList "fF".toList
      = (false, ⟨body, sg⟩) := by
    apply accept3_of_not_mem
    intro x hx
    simp only [htl, List.head?_cons, Option.mem_def, Option.some.injEq] at hx
    subst hx
    exact hci
  -- digits
  have hd : acceptRun decimalDigits body sg
      = ⟨(if point then '.' :: fd else []) ++ t :: rest, sg ++ ip⟩ := by
    rw [hbody, List.append_assoc]
    apply acceptRun_digits _ _ _ hipd
    intro x hx
    cases point with
    | true =>
      simp only [if_true, List.cons_append, List.head?_cons, Option.mem_def,
        Option.some.injEq] at hx
      subst hx
      decide
    | false =>
      simp only [Bool.false_eq_true, if_false, List.nil_append, List.head?_cons, Option.mem_def,
        Option.some.injEq] at hx
      subst hx
      exact htd
  have hthead : ∀ x ∈ (t :: rest).head?, isDigit x = false := by
    intro x hx
    simp only [List.head?_cons, Option.mem_def, Option.some.injEq] at hx
    subst hx
    exact htd
  -- point, digits
  have hf : tokenFraction ⟨(if point then '.' :: fd else []) ++ t :: rest, sg ++ ip⟩
      = ⟨t :: rest, sg ++ (ip ++ (if point then '.' :: fd else []))⟩ := by
    cases point with
    | true =>
      simp only [if_true, List.cons_append]
      rw [tokenFraction_point fd (t :: rest) _ hfd hthead]
      simp
    | false =>
      simp only [Bool.false_eq_true, if_false, List.nil_append, List.append_nil]
      apply tokenFraction_none
      intro x hx
      simp only [List.head?_cons, Option.mem_def, Option.some.injEq] at hx
      subst hx
      exact htdot
  have he : tokenExponent ⟨t :: rest, sg ++ (ip ++ (if point then '.' :: fd else []))⟩
      = ⟨t :: rest, sg ++ (ip ++ (if point then '.' :: fd else []))⟩ := by
    apply tokenExponent_none
    intro x hx
    simp only [List.head?_cons, Option.mem_def, Option.some.injEq] at hx
    subst hx
    exact hte
  unfold floatToken
  simp only [hn, hs, hi, Bool.false_eq_true, if_false, hd, hf, he]
theorem isSpace_digit (c : Char) (h : isDigit c = true) : isSpace c = false := by
  rw [isDigit_iff] at h
  unfold isSpace
  simp only [Bool.or_eq_false_iff, Bool.and_eq_false_iff, decide_eq_false_iff_not,
    beq_eq_false_iff_ne]
  omega

theorem SkipSpace_of_not_space (c : Char) (r : List Char) (h : isSpace c = false) :
    SkipSpace (c :: r) = .ok (c :: r) := by
  have h1 : c ≠ '\r' := by
    intro hc
    subst hc
    revert h
    decide
  have h2 : c ≠ '\n' := by
    intro hc
    subst hc
    revert h
    decide
  simp [SkipSpace, h1, h2, h]

theorem not_p_decimal (sg : List Char) (d : Nat) (e10 : Int) (hsg : sg = [] ∨ sg = ['-']) :
    'p' ∉ sg ++ fmtF d e10 := by
  obtain ⟨ip, fd, _, hipd, hfd, h⟩ := fmtF_shape d e10
  have hp : ∀ c, isDigit c = true → c ≠ 'p' := fun c hc => digit_ne c hc 'p' (by decide)
  intro hm
  rcases List.mem_append.1 hm with hm | hm
  · rcases hsg with h' | h' <;> (subst h'; simp at hm)
  · rcases h with h | h
    · rw [h] at hm
      exact hp _ (hipd _ hm) rfl
    · rw [h] at hm
      rcases List.mem_append.1 hm with hm | hm
      · exact hp _ (hipd _ hm) rfl
      · rcases List.mem_cons.1 hm with hm | hm
        · revert hm
          decide
        · exact hp _ (hfd _ hm) rfl

theorem signText_cases (neg : Bool) : signText neg = [] ∨ signText neg = ['-'] := by
  cases neg <;> simp [signText]

/-- Scanning a `%f` verb at the text FormatFloat gives, when `,` or `)` follows it. -/
theorem scanOne_FormatFloat (x : Float64) (hx : x.isNaN = false) (t : Char) (rest : List Char)
    (ht : t = ',' ∨ t = ')') :
    SkipSpace (FormatFloat x ++ t :: rest) = .ok (FormatFloat x ++ t :: rest) ∧
      scanOne 'f' (FormatFloat x ++ t :: rest) = .ok (x, t :: rest) := by
  by_cases hfin : x.expo.val = 2047
  · -- an infinity
    have hfr : x.frac.val = 0 := by
      simp only [Float64.isNaN, hfin, beq_self_eq_true, Bool.true_and, bne_eq_false_iff_eq] at hx
      exact hx
    have hxe : x = Float64.ofFields x.sign 2047 0 :=
      (Float64.ext_fields x x.sign 2047 0 rfl hfin hfr).symm
    rw [hxe]
    rcases ht with h | h <;> subst h <;> cases x.sign <;> exact ⟨rfl, rfl⟩
  · obtain ⟨⟨d, e10, hform⟩, hparse⟩ := FormatFloat_finite x hfin
    obtain ⟨ip, fd, hip, hipd, hfd, hshape⟩ := fmtF_shape d e10
    -- the text as sign, integer digits and optional fraction
    obtain ⟨point, hpt⟩ : ∃ point : Bool,
        fmtF d e10 = ip ++ (if point then '.' :: fd else []) := by
      rcases hshape with h | h
      · exact ⟨false, by simp [h]⟩
      · exact ⟨true, by simp [h]⟩
    have htok := floatToken_decimal_aux (signText x.sign) ip fd point t rest
      (signText_cases x.sign) hip hipd hfd ht
    rw [← hpt, ← hform] at htok
    -- the first rune is no space
    obtain ⟨c, r, hcr, hcsp⟩ : ∃ c r, FormatFloat x ++ t :: rest = c :: r ∧ isSpace c = false := by
      obtain ⟨c0, r0, hc0⟩ : ∃ c0 r0, ip = c0 :: r0 := by
        cases ip with
        | nil => exact absurd rfl hip
        | cons c0 r0 => exact ⟨c0, r0, rfl⟩
      rw [hform, hpt, hc0]
      cases x.sign with
      | true =>
        exact ⟨'-', c0 :: r0 ++ (if point then '.' :: fd else []) ++ t :: rest,
          by simp [signText], by decide⟩
      | false =>
        exact ⟨c0, r0 ++ (if point then '.' :: fd else []) ++ t :: rest,
          by simp [signText], isSpace_digit c0 (hipd c0 (by simp [hc0]))⟩
    have hsk : SkipSpace (FormatFloat x ++ t :: rest) = .ok (FormatFloat x ++ t :: rest) := by
      rw [hcr]
      exact SkipSpace_of_not_space c r hcsp
    refine ⟨hsk, ?_⟩
    have hconv : convertFloat (FormatFloat x) = (x, none) := by
      unfold convertFloat
      rw [if_neg (by rw [hform]; exact not_p_decimal _ d e10 (signText_cases x.sign))]
      exact hparse
    unfold scanOne
    rw [if_pos (by decide), hsk, hcr]
    simp only
    rw [← hcr, htok]
    simp only [hconv]

/-! ## Value then Scan -/

theorem doScanf_verb_FormatFloat (items : List FormatItem) (x : Float64) (hx : x.isNaN = false)
    (t : Char) (rest : List Char) (ht : t = ',' ∨ t = ')') (a : List Float64) (n : Nat)
    (hn : n < a.length) :
    doScanf (FormatItem.verb 'f' :: items) (FormatFloat x ++ t :: rest) a n
      = doScanf items (t :: rest) (a.set n x) (n + 1) := by
  obtain ⟨hsk, hone⟩ := scanOne_FormatFloat x hx t rest ht
  rw [doScanf, hsk]
  simp only
  rw [if_neg (by omega), hone]

/-- Scan reads the text Value writes for a point without NaN back into that point. -/
theorem Scan_pointText (p l : GPSPoint) (hlat : p.Latitude.isNaN = false)
    (hlon : p.Longitude.isNaN = false) :
    l.Scan (DriverValue.bytes (String.mk ("(".toList ++ FormatFloat p.Latitude
      ++ ",".toList ++ FormatFloat p.Longitude ++ ")".toList))) = (p, none) := by
  have hdata : (String.mk ("(".toList ++ FormatFloat p.Latitude ++ ",".toList
      ++ FormatFloat p.Longitude ++ ")".toList)).data
      = '(' :: (FormatFloat p.Latitude ++ ',' :: (FormatFloat p.Longitude ++ ')' :: [])) := by
    simp
  have hfmt : doScanf (parseFormat "(%f,%f)".data)
      ('(' :: (FormatFloat p.Latitude ++ ',' :: (FormatFloat p.Longitude ++ ')' :: [])))
      [l.Latitude, l.Longitude] 0 = ([p.Latitude, p.Longitude], none) := by
    rw [parseFormat_point]
    rw [doScanf, if_pos rfl]
    rw [doScanf_verb_FormatFloat _ _ hlat ',' _ (Or.inl rfl) _ 0 (by simp)]
    rw [doScanf, if_pos rfl]
    rw [doScanf_verb_FormatFloat _ _ hlon ')' _ (Or.inr rfl) _ 1 (by simp)]
    rw [doScanf, if_pos rfl]
    simp [doScanf]
  show ((⟨(Sscanf _ "(%f,%f)" [l.Latitude, l.Longitude]).1.getD 0 l.Latitude,
    (Sscanf _ "(%f,%f)" [l.Latitude, l.Longitude]).1.getD 1 l.Longitude⟩ : GPSPoint),
    (Sscanf _ "(%f,%f)" [l.Latitude, l.Longitude]).2) = (p, none)
  unfold Sscanf
  rw [hdata, hfmt]
  rfl

/-- C1 (as amended): for every point whose coordinates are not NaN, Scan on the bytes of
the string Value produces returns no error and yields a point whose Latitude and
Longitude are bit for bit those of the point (whatever the receiver held before), hence
also equal to them under Go's `==`. -/
theorem Scan_Value_roundtrip (p l : GPSPoint) (hlat : p.Latitude.isNaN = false)
    (hlon : p.Longitude.isNaN = false) :
    ∃ s, p.Value = (DriverValue.string s, none) ∧
      l.Scan (DriverValue.bytes s) = (p, none) ∧
      (l.Scan (DriverValue.bytes s)).1.Latitude.goEq p.Latitude = true ∧
      (l.Scan (DriverValue.bytes s)).1.Longitude.goEq p.Longitude = true := by
  have hscan := Scan_pointText p l hlat hlon
  refine ⟨_, rfl, hscan, ?_, ?_⟩
  · rw [hscan]
    simp [Float64.goEq, hlat]
  · rw [hscan]
    simp [Float64.goEq, hlon]

theorem Scan_Value_roundtrip_witness :
    ∃ s, testGateway.Location.Value = (DriverValue.string s, none) ∧
      GPSPoint.Scan ⟨Float64.zero false, Float64.zero false⟩ (DriverValue.bytes s)
        = (testGateway.Location, none) ∧
      (GPSPoint.Scan ⟨Float64.zero false, Float64.zero false⟩
        (DriverValue.bytes s)).1.Latitude.goEq testGateway.Location.Latitude = true ∧
      (GPSPoint.Scan ⟨Float64.zero false, Float64.zero false⟩
        (DriverValue.bytes s)).1.Longitude.goEq testGateway.Location.Longitude = true :=
  Scan_Value_roundtrip testGateway.Location ⟨Float64.zero false, Float64.zero false⟩
    (by decide) (by decide)

/-- C1, as stated, fails: the latitude is a NaN (bits 0xFFF8000000000000); Value writes
"NaN" for it and Scan reads math.NaN() back, which has other bits and, as any NaN, is not
`==` to the latitude. -/
theorem Scan_Value_NaN :
    GPSPoint.Value ⟨Float64.ofFields true 2047 2251799813685248, Float64.zero false⟩
      = (DriverValue.string "(NaN,0)", none) ∧
    GPSPoint.Scan ⟨Float64.zero false, Float64.zero false⟩ (DriverValue.bytes "(NaN,0)")
      = (⟨Float64.NaN, Float64.zero false⟩, none) ∧
    Float64.NaN ≠ Float64.ofFields true 2047 2251799813685248 ∧
    Float64.goEq Float64.NaN (Float64.ofFields true 2047 2251799813685248) = false := by
  decide

/-! ## Create, then get -/

/-- C9 (as amended): on the table, for every gateway whose id has no row yet and whose
location coordinates are not NaN, after a successful CreateGateway the call GetGateway
for the id returns no error and the caller's gateway as Create left it, field by field:
id, location, altitude and the optional id and key fields bit for bit, and every
timestamp (CreatedAt, UpdatedAt and the optional FirstSeenAt and LastSeenAt) at the
precision `q` the store keeps; a nil optional field stays nil. -/
theorem create_then_get (q : Time → Time) (now : Time) (g : Gateway) (w : World Table)
    (hfresh : ∀ r ∈ w.db, r.gateway_id ≠ g.GatewayID)
    (hcreated : (CreateGateway (tableExecer q) now g w).1.2 = none)
    (hlat : g.Location.Latitude.isNaN = false) (hlon : g.Location.Longitude.isNaN = false) :
    (GetGateway tableQueryer g.GatewayID (CreateGateway (tableExecer q) now g w).2).1 =
      ({ (CreateGateway (tableExecer q) now g w).1.1 with
          CreatedAt := q (CreateGateway (tableExecer q) now g w).1.1.CreatedAt
          UpdatedAt := q (CreateGateway (tableExecer q) now g w).1.1.UpdatedAt
          FirstSeenAt := (CreateGateway (tableExecer q) now g w).1.1.FirstSeenAt.map q
          LastSeenAt := (CreateGateway (tableExecer q) now g w).1.1.LastSeenAt.map q }, none) := by
  have hfil : w.db.filter (fun r => r.gateway_id == g.GatewayID) = [] := by
    rw [List.filter_eq_nil_iff]
    intro r hr
    simpa using hfresh r hr
  have hscan := Scan_pointText g.Location Gateway.zeroValue.Location hlat hlon
  -- a successful insert has put the row at the end of the table
  have hcreate : CreateGateway (tableExecer q) now g w =
      (({ g with CreatedAt := now, UpdatedAt := now }, none),
        { w with
          db := w.db ++ [{ gateway_id := g.GatewayID, created_at := q now, updated_at := q now,
                           first_seen_at := g.FirstSeenAt.map q,
                           last_seen_at := g.LastSeenAt.map q,
                           location := DriverValue.bytes (String.mk ("(".toList
                             ++ FormatFloat g.Location.Latitude ++ ",".toList
                             ++ FormatFloat g.Location.Longitude ++ ")".toList)),
                           altitude := g.Altitude,
                           gateway_profile_id := g.GatewayProfileID,
                           fine_timestamp_aes_key := g.FineTimestampAESKey,
                           fpga_id := g.FPGAID }]
          log := w.log ++ [⟨"gateway created", g.GatewayID⟩] }) := by
    by_cases hany : w.db.any (fun r => r.gateway_id == g.GatewayID) = true
    · exfalso
      revert hcreated
      simp [CreateGateway, Gateway.Validate, tableExecer, Table.Exec, hany, handlePSQLError]
    · simp [CreateGateway, Gateway.Validate, tableExecer, Table.Exec, hany, GPSPoint.Value,
        asColumn]
  rw [hcreate]
  simp only [GetGateway, sqlxGet, tableQueryer, Table.Queryx, List.filter_append, hfil,
    List.nil_append, List.filter_cons, beq_self_eq_true, if_true, List.filter_nil]
  simp only [Row.scan, hscan]

theorem create_then_get_witness :
    (GetGateway tableQueryer testID
        (CreateGateway (tableExecer microseconds) 5200 testGateway ⟨[], [], []⟩).2).1 =
      ({ testGateway with CreatedAt := 5000, UpdatedAt := 5000 }, none) :=
  create_then_get microseconds 5200 testGateway ⟨[], [], []⟩
    (fun _ hr => absurd hr (List.not_mem_nil _)) (by decide) (by decide) (by decide)

/-- C9, as stated, fails: a gateway whose latitude is a NaN (bits 0xFFF8000000000000) is
created, and GetGateway returns it with another latitude, math.NaN(). -/
theorem create_then_get_NaN :
    (CreateGateway (tableExecer asGiven) 5
      { testGateway with
        Location := ⟨Float64.ofFields true 2047 2251799813685248, Float64.zero false⟩ }
      ⟨[], [], []⟩).1.2 = none ∧
    (GetGateway tableQueryer testID
      (CreateGateway (tableExecer asGiven) 5
        { testGateway with
          Location := ⟨Float64.ofFields true 2047 2251799813685248, Float64.zero false⟩ }
        ⟨[], [], []⟩).2).1
      = ({ testGateway with
            CreatedAt := 5, UpdatedAt := 5,
            Location := ⟨Float64.NaN, Float64.zero false⟩ }, none) ∧
    Float64.NaN ≠ Float64.ofFields true 2047 2251799813685248 ∧
    Float64.goEq Float64.NaN (Float64.ofFields true 2047 2251799813685248) = false := by
  decide

end Storage
